import Mathlib

/-!
# oci-systemd-hook: a shallow embedding of `src/systemdhook.c`

C strings are lists of characters (the bytes before the terminating NUL).
The operating system is a record `World`: the directories and regular files
that exist, the value of `errno`, the log of the mutating system calls the
program has issued, and a failure oracle that may refuse any system call with
an error number of its choice.  Functions of the source keep their names.
-/

namespace SystemdHook

/-! ## Strings and libc helpers -/

/-- A C string: the bytes before the terminating NUL. -/
abbrev CStr := List Char

/-- The double quote character, used by the `context="..."` mount option. -/
def dquote : Char := Char.ofNat 34

/-- `linux/limits.h`: size of the path buffers, terminating NUL included. -/
def PATH_MAX : Nat := 4096

/-- `#define CGROUP_ROOT "/sys/fs/cgroup"` (line 76). -/
def CGROUP_ROOT : CStr := "/sys/fs/cgroup".toList

/-- `snprintf(buf, size, ...)`: the formatted text `s` cut to `size - 1` bytes. -/
def snprintf (size : Nat) (s : CStr) : CStr := s.take (size - 1)

/-- `strchr(s, c)`: the suffix of `s` that starts at the first `c`, or NULL. -/
def strchr : CStr → Char → Option CStr
  | [], _ => none
  | x :: xs, c => if x = c then some (x :: xs) else strchr xs c

/-- `memrchr(s, c, n)`: index of the last `c` among the first `n` bytes of `s`. -/
def memrchr (s : CStr) (c : Char) : Nat → Option Nat
  | 0 => none
  | n + 1 => if s[n]? = some c then some n else memrchr s c n

/-- `strrchr(s, c)`: index of the last `c` in `s`, or NULL. -/
def strrchr (s : CStr) (c : Char) : Option Nat := memrchr s c s.length

/-- The loop of glibc's `dirname`
`for (runp = last_slash; runp != path; --runp) if (runp[-1] != '/') break;`
started at index `i`; the result is the index `runp` stops at. -/
def skip_slashes_back (s : CStr) : Nat → Nat
  | 0 => 0
  | k + 1 => if s[k]? = some '/' then skip_slashes_back s k else k + 1

/-- glibc's `dirname` (`libgen.h`, called at line 88).  The last slash is
located; when it ends the string and is not its first byte the slash before the
trailing component is located instead; the run of slashes before it is
dropped.  A path without a slash gives `"."`, and a path that starts with
exactly two slashes and has no further component gives `"//"`. -/
def dirname (path : CStr) : CStr :=
  let last_slash : Option Nat :=
    match strrchr path '/' with
    | none => none
    | some i =>
      if i ≠ 0 ∧ i + 1 = path.length then
        let runp := skip_slashes_back path i
        if runp ≠ 0 then memrchr path '/' runp else some i
      else some i
  match last_slash with
  | none => ['.']
  | some i =>
    let runp := skip_slashes_back path i
    if runp = 0 then
      if i = 1 then path.take 2 else path.take 1
    else path.take runp

/-- `isspace` in the C locale. -/
def isspace (c : Char) : Bool :=
  c = ' ' ∨ c = '\t' ∨ c = '\n' ∨ c = Char.ofNat 11 ∨ c = Char.ofNat 12 ∨ c = '\r'

/-- The decimal digits `strtoull` consumes, accumulated from the left; the
second component records that the value left the range of 64 bits. -/
def strtoull_digits : CStr → Nat → Bool → Nat × Bool
  | [], acc, ovf => (acc, ovf)
  | c :: cs, acc, ovf =>
    if c.isDigit then
      let v := acc * 10 + (c.toNat - '0'.toNat)
      if v < 2 ^ 64 then strtoull_digits cs v ovf else strtoull_digits cs acc true
    else (acc, ovf)

/-- `strtoull(s, &end, 10)` (line 364): white space is skipped, an optional
sign is read, then decimal digits.  No digit gives 0; a value above
`ULLONG_MAX` gives `ULLONG_MAX`; a minus sign negates modulo `2 ^ 64`.  The
end pointer is never inspected by the caller and is not returned. -/
def strtoull (s : CStr) : Nat :=
  let s1 := s.dropWhile isspace
  let (neg, s2) :=
    match s1 with
    | '-' :: r => (true, r)
    | '+' :: r => (false, r)
    | r => (false, r)
  let (v, ovf) := strtoull_digits s2 0 false
  if ovf then 2 ^ 64 - 1
  else if neg then (2 ^ 64 - v) % 2 ^ 64 else v

/-- The conversion `%d` of `printf`. -/
def fmt_d (n : Int) : CStr :=
  if n < 0 then '-' :: Nat.toDigits 10 n.natAbs else Nat.toDigits 10 n.natAbs

/-- The conversion `%PRIu64` of `printf`. -/
def fmt_u64 (n : Nat) : CStr := Nat.toDigits 10 (n % 2 ^ 64)

/-! ## The operating system -/

/-- Error numbers the model distinguishes. -/
inductive Errno where
  | EPERM | ENOENT | EIO | EACCES | EEXIST | ENOTDIR | EINVAL | ENOSPC | EROFS
  deriving DecidableEq, Repr

/-- The system calls of the program, with their arguments. -/
inductive Call where
  | mkdir (path : CStr) (mode : Nat)
  | mount (source target fstype : CStr) (flags : Nat) (data : Option CStr)
  | setfilecon (path con : CStr)
  | creat (path : CStr) (flags mode : Nat)
  | write (path bytes : CStr)
  | unlink (path : CStr)
  | open_rdonly (path : CStr)
  | read (path : CStr)
  | setns (path : CStr)
  | chdir (path : CStr)
  deriving DecidableEq, Repr

/-- A mount entry of the libmount table with the entries mounted below it, in
the order `mnt_table_next_child_fs` yields them. -/
inductive MountNode where
  | mk (target : CStr) (children : List MountNode)

/-- The mount target of an entry (`mnt_fs_get_target`). -/
def MountNode.target : MountNode → CStr
  | .mk t _ => t

/-- The state of the machine the hook runs on.  `dirs` are the directories
that exist besides `/` and `.`; `files` the regular files with their content;
`trace` the mutating system calls issued so far, oldest first; `refuse` the
failure oracle: `some e` refuses the call with `errno = e`.  `mountinfo` is what
parsing `/proc/self/mountinfo` gives: `none` when parsing fails, else the root
entry of the table if it has one. -/
structure World where
  dirs : List CStr
  files : List (CStr × CStr)
  errno : Option Errno
  trace : List Call
  refuse : Call → Option Errno
  mountinfo : Option (Option MountNode)

/-- Mount flags of `sys/mount.h`. -/
def MS_RDONLY : Nat := 1
/-- Mount flag `MS_NOSUID`. -/
def MS_NOSUID : Nat := 2
/-- Mount flag `MS_NODEV`. -/
def MS_NODEV : Nat := 4
/-- Mount flag `MS_NOEXEC`. -/
def MS_NOEXEC : Nat := 8
/-- Mount flag `MS_REMOUNT`. -/
def MS_REMOUNT : Nat := 32
/-- Mount flag `MS_BIND`. -/
def MS_BIND : Nat := 4096
/-- Open flag `O_WRONLY`. -/
def O_WRONLY : Nat := 1
/-- Open flag `O_CREAT`. -/
def O_CREAT : Nat := 64

/-- The content of the regular file at `path`, if there is one. -/
def lookup_file : List (CStr × CStr) → CStr → Option CStr
  | [], _ => none
  | (p, c) :: rest, path => if p = path then some c else lookup_file rest path

/-- The file table with the content of `path` replaced, or added. -/
def store_file : List (CStr × CStr) → CStr → CStr → List (CStr × CStr)
  | [], path, c => [(path, c)]
  | (p, old) :: rest, path, c =>
    if p = path then (p, c) :: rest else (p, old) :: store_file rest path c

/-- The file table without `path`. -/
def remove_file : List (CStr × CStr) → CStr → List (CStr × CStr)
  | [], _ => []
  | (p, c) :: rest, path =>
    if p = path then remove_file rest path else (p, c) :: remove_file rest path

/-- Whether `path` names an existing directory; `/` and `.` always do. -/
def dir_exists (dirs : List CStr) (path : CStr) : Bool :=
  path = ['/'] ∨ path = ['.'] ∨ path ∈ dirs

/-- `mkdir(path, mode)`: refused by the oracle, or `EEXIST` when the directory
exists, or `ENOENT` when its parent directory does not, or the directory is
created.  Returns the result of the call and the new state. -/
def sys_mkdir (w : World) (path : CStr) (mode : Nat) : Int × World :=
  let w1 := { w with trace := w.trace ++ [Call.mkdir path mode] }
  match w.refuse (Call.mkdir path mode) with
  | some e => (-1, { w1 with errno := some e })
  | none =>
    if dir_exists w.dirs path then (-1, { w1 with errno := some Errno.EEXIST })
    else if dir_exists w.dirs (dirname path) then (0, { w1 with dirs := path :: w.dirs })
    else (-1, { w1 with errno := some Errno.ENOENT })

/-- `mount(source, target, fstype, flags, data)`: succeeds unless the oracle
refuses it. -/
def sys_mount (w : World) (source target fstype : CStr) (flags : Nat)
    (data : Option CStr) : Int × World :=
  let c := Call.mount source target fstype flags data
  let w1 := { w with trace := w.trace ++ [c] }
  match w.refuse c with
  | some e => (-1, { w1 with errno := some e })
  | none => (0, w1)

/-- `setfilecon(path, con)`: succeeds unless the oracle refuses it. -/
def sys_setfilecon (w : World) (path con : CStr) : Int × World :=
  let c := Call.setfilecon path con
  let w1 := { w with trace := w.trace ++ [c] }
  match w.refuse c with
  | some e => (-1, { w1 with errno := some e })
  | none => (0, w1)

/-- `unlink(path)`: refused by the oracle, or the file is removed, or `ENOENT`
when there is no such file. -/
def sys_unlink (w : World) (path : CStr) : Int × World :=
  let w1 := { w with trace := w.trace ++ [Call.unlink path] }
  match w.refuse (Call.unlink path) with
  | some e => (-1, { w1 with errno := some e })
  | none =>
    match lookup_file w.files path with
    | some _ => (0, { w1 with files := remove_file w.files path })
    | none => (-1, { w1 with errno := some Errno.ENOENT })

/-- `open(path, O_CREAT|O_WRONLY, mode)`: refused by the oracle, or the
existing file is opened with its content kept (no `O_TRUNC`), or an empty file
is created when the parent directory exists, or `ENOENT`. -/
def sys_creat (w : World) (path : CStr) (flags mode : Nat) : Int × World :=
  let w1 := { w with trace := w.trace ++ [Call.creat path flags mode] }
  match w.refuse (Call.creat path flags mode) with
  | some e => (-1, { w1 with errno := some e })
  | none =>
    match lookup_file w.files path with
    | some _ => (0, w1)
    | none =>
      if dir_exists w.dirs (dirname path) then
        (0, { w1 with files := store_file w.files path [] })
      else (-1, { w1 with errno := some Errno.ENOENT })

/-- A write of `bytes` at offset 0 of the open file `path`, as `dprintf` does
on a descriptor that was just opened: the first bytes of the file are
overwritten and what lies beyond them is kept.  Returns the number of bytes
written, or -1. -/
def sys_write (w : World) (path bytes : CStr) : Int × World :=
  let w1 := { w with trace := w.trace ++ [Call.write path bytes] }
  match w.refuse (Call.write path bytes) with
  | some e => (-1, { w1 with errno := some e })
  | none =>
    let old := (lookup_file w.files path).getD []
    ((bytes.length : Int),
      { w1 with files := store_file w.files path (bytes ++ old.drop bytes.length) })

/-- Opening `path` for reading and reading up to `n` bytes: `none` when the
oracle refuses the open or the read, or the file does not exist. -/
def sys_read (w : World) (path : CStr) (n : Nat) : Option CStr :=
  match w.refuse (Call.open_rdonly path) with
  | some _ => none
  | none =>
    match lookup_file w.files path with
    | none => none
    | some c =>
      match w.refuse (Call.read path) with
      | some _ => none
      | none => some (c.take n)

/-! ## The functions of `systemdhook.c` -/

/-- `makepath` (lines 78-91).  `dir = none` is the NULL pointer.  The C
function recurses on `dirname(dir)` until it meets the string `"/"`; `fuel`
bounds the depth of that recursion and `none` is returned when it is used up,
so a call that returns `none` for every `fuel` never returns in C. -/
def makepath (fuel : Nat) (w : World) (dir : Option CStr) (mode : Nat) :
    Option (Int × World) :=
  match dir with
  | none => some (-1, { w with errno := some Errno.EINVAL })
  | some d =>
    if d.length = 1 ∧ d[0]? = some '/' then some (0, w)
    else
      match fuel with
      | 0 => none
      | f + 1 =>
        match makepath f w (some (dirname d)) mode with
        | none => none
        | some (_, w1) => some (sys_mkdir w1 d mode)

/-- `bind_mount` (lines 93-106): a bind mount of `src` on `dest`, then, when
`readonly` is requested, the remount of it read-only. -/
def bind_mount (w : World) (src dest : CStr) (readonly : Bool) : Int × World :=
  match sys_mount w src dest "bind".toList MS_BIND none with
  | (rc, w1) =>
    if rc = -1 then (-1, w1)
    else if readonly then
      match sys_mount w1 src dest "bind".toList (MS_REMOUNT ||| MS_BIND ||| MS_RDONLY)
          (some []) with
      | (rc2, w2) => if rc2 = -1 then (-1, w2) else (0, w2)
    else (0, w1)

/-- `strncmp(a, b, n) == 0` on strings without NUL bytes. -/
def strncmp_eq (a b : CStr) (n : Nat) : Bool := a.take n = b.take n

/-- The body of the loop of `mount_cgroup` for one child up to the recursive
call (lines 163-182): a child whose target starts with `CGROUP_ROOT` gets its
destination directory made and is bind mounted there, read-only unless its
target is `/sys/fs/cgroup/systemd`. -/
def mount_cgroup_child (fuel : Nat) (rootfs : CStr) (src : CStr) (w : World) :
    Option (Int × World) :=
  if strncmp_eq src CGROUP_ROOT CGROUP_ROOT.length then
    let dest := snprintf PATH_MAX (rootfs ++ src)
    match makepath fuel w (some dest) 0o755 with
    | none => none
    | some (rc, w1) =>
      if rc = -1 ∧ w1.errno ≠ some Errno.EEXIST then some (-1, w1)
      else
        let readonly : Bool := src ≠ "/sys/fs/cgroup/systemd".toList
        match bind_mount w1 src dest readonly with
        | (rc2, w2) => if rc2 < 0 then some (-1, w2) else some (0, w2)
  else some (0, w)

mutual
/-- `mount_cgroup` (lines 141-187) called on the entry `fs`: the loop over the
children of `fs`. -/
def mount_cgroup_fs (fuel : Nat) (rootfs : CStr) : MountNode → World → Option (Int × World)
  | .mk _ children, w => mount_cgroup_loop fuel rootfs children w
/-- The `while` loop of `mount_cgroup` (lines 162-185) over the children that
`mnt_table_next_child_fs` has still to yield. -/
def mount_cgroup_loop (fuel : Nat) (rootfs : CStr) :
    List MountNode → World → Option (Int × World)
  | [], w => some (0, w)
  | chld :: rest, w =>
    match mount_cgroup_child fuel rootfs chld.target w with
    | none => none
    | some (rc, w1) =>
      if rc ≠ 0 then some (-1, w1)
      else
        match mount_cgroup_fs fuel rootfs chld w1 with
        | none => none
        | some (rc2, w2) =>
          if rc2 ≠ 0 then some (-1, w2) else mount_cgroup_loop fuel rootfs rest w2
end

/-- `mount_cgroup(tb, fs, rootfs)` (lines 141-187).  `tb` is the root entry of
the table, if any; `fs = none` is the first call, which asks the table for
its root and fails when there is none. -/
def mount_cgroup (fuel : Nat) (w : World) (tb : Option MountNode) (fs : Option MountNode)
    (rootfs : CStr) : Option (Int × World) :=
  match fs with
  | some f => mount_cgroup_fs fuel rootfs f w
  | none =>
    match tb with
    | none => some (-1, w)
    | some root => mount_cgroup_fs fuel rootfs root w

/-- `get_file_contents` (lines 192-210): up to 256 bytes of the file, or NULL
when it cannot be opened or read.  (On a file of 256 bytes or more the C code
stores the terminating NUL one byte past its buffer; the model returns the
first 256 bytes.) -/
def get_file_contents (w : World) (path : CStr) : Option CStr :=
  sys_read w path 256

/-- The lines `getline` returns one after the other: each keeps its newline,
the last one may lack it.  `cur` holds the bytes of the line being read. -/
def getlines : CStr → CStr → List CStr
  | [], cur => if cur = [] then [] else [cur]
  | c :: cs, cur =>
    if c = '\n' then (cur ++ [c]) :: getlines cs [] else getlines cs (cur ++ [c])

/-- The `while` loop of `get_process_cgroup_subsystem_path` (lines 236-262)
over the lines still to be read. -/
def cgroup_scan (subsystem : CStr) : List CStr → Option CStr
  | [] => none
  | line :: rest =>
    match strchr line ':' with
    | none => none
    | some p =>
      let ptr := p.tail
      if strncmp_eq ptr subsystem subsystem.length then
        match strchr ptr '/' with
        | none => none
        | some path => some ((CGROUP_ROOT ++ ['/'] ++ subsystem ++ path).dropLast)
      else cgroup_scan subsystem rest

/-- `get_process_cgroup_subsystem_path` (lines 215-265): the cgroup directory
of `subsystem` for process `pid`, read from `/proc/<pid>/cgroup`, or NULL. -/
def get_process_cgroup_subsystem_path (w : World) (pid : Int) (subsystem : CStr) :
    Option CStr :=
  let cgroups_file_path := "/proc/".toList ++ fmt_d pid ++ "/cgroup".toList
  match w.refuse (Call.open_rdonly cgroups_file_path) with
  | some _ => none
  | none =>
    match lookup_file w.files cgroups_file_path with
    | none => none
    | some content =>
      match w.refuse (Call.read cgroups_file_path) with
      | some _ => none
      | none => cgroup_scan subsystem (getlines content [])

/-- `contains_mount` (lines 267-275). -/
def contains_mount : List CStr → CStr → Bool
  | [], _ => false
  | m :: rest, mount => if mount = m then true else contains_mount rest mount

/-- The mount option `,context="<label>"` appended for a non-empty label. -/
def context_option (mount_label : CStr) : CStr :=
  if mount_label = [] then []
  else ",context=".toList ++ [dquote] ++ mount_label ++ [dquote]

/-- Entering the mount namespace of `pid` (lines 288-309): open the handle,
`setns`, `chdir("/")`. -/
def enter_namespace (w : World) (pid : Int) : Int × World :=
  let process_mnt_ns_fd := snprintf PATH_MAX ("/proc/".toList ++ fmt_d pid ++ "/ns/mnt".toList)
  match w.refuse (Call.open_rdonly process_mnt_ns_fd) with
  | some e => (-1, { w with errno := some e })
  | none =>
    match w.refuse (Call.setns process_mnt_ns_fd) with
    | some e => (-1, { w with errno := some e })
    | none =>
      match w.refuse (Call.chdir ['/']) with
      | some e => (-1, { w with errno := some e })
      | none => (0, w)

/-- The `/run` block of `prestart` (lines 311-338). -/
def prestart_run (w : World) (rootfs mount_label : CStr) (config_mounts : List CStr) :
    Int × World :=
  let run_dir := snprintf PATH_MAX (rootfs ++ "/run".toList)
  if ¬ contains_mount config_mounts "/run".toList then
    match sys_mkdir w run_dir 0o755 with
    | (rc, w1) =>
      if rc = -1 ∧ w1.errno ≠ some Errno.EEXIST then (-1, w1)
      else
        let options := "mode=755,size=65536k".toList ++ context_option mount_label
        match sys_mount w1 "tmpfs".toList run_dir "tmpfs".toList
            (MS_NODEV ||| MS_NOSUID ||| MS_NOEXEC) (some options) with
        | (rc2, w2) => if rc2 = -1 then (-1, w2) else (0, w2)
  else (0, w)

/-- The memory limit of the container in KiB halved (lines 340-369): the
cgroup directory of the memory subsystem is looked up, its file
`memory.limit_in_bytes` is read and converted by `strtoull`, and the result is
divided by 2048.  `none` stands for the two `return -1` of lines 342-357. -/
def prestart_memory_limit_in_kb (w : World) (pid : Int) : Option Nat :=
  match get_process_cgroup_subsystem_path w pid "memory".toList with
  | none => none
  | some memory_cgroup_path =>
    let memory_limit_path :=
      snprintf PATH_MAX (memory_cgroup_path ++ "/memory.limit_in_bytes".toList)
    match get_file_contents w memory_limit_path with
    | none => none
    | some memory_limit_str =>
      let memory_limit_in_bytes := strtoull memory_limit_str
      some (memory_limit_in_bytes / 2048)

/-- The `/tmp` block of `prestart` (lines 371-398). -/
def prestart_tmp (w : World) (rootfs mount_label : CStr) (config_mounts : List CStr)
    (memory_limit_in_kb : Nat) : Int × World :=
  let tmp_dir := snprintf PATH_MAX (rootfs ++ "/tmp".toList)
  if ¬ contains_mount config_mounts "/tmp".toList then
    match sys_mkdir w tmp_dir 0o755 with
    | (rc, w1) =>
      if rc = -1 ∧ w1.errno ≠ some Errno.EEXIST then (-1, w1)
      else
        let options := "mode=1777,size=".toList ++ fmt_u64 memory_limit_in_kb ++ ['k']
          ++ context_option mount_label
        match sys_mount w1 "tmpfs".toList tmp_dir "tmpfs".toList
            (MS_NODEV ||| MS_NOSUID) (some options) with
        | (rc2, w2) => if rc2 = -1 then (-1, w2) else (0, w2)
  else (0, w)

/-- The journal block of `prestart` (lines 400-431). -/
def prestart_journal (fuel : Nat) (w : World) (rootfs id mount_label : CStr)
    (config_mounts : List CStr) : Option (Int × World) :=
  if ¬ contains_mount config_mounts "/var/log/journal".toList then
    let journal_dir := snprintf PATH_MAX ("/var/log/journal/".toList ++ id.take 32)
    let cont_journal_dir := snprintf PATH_MAX (rootfs ++ journal_dir)
    match makepath fuel w (some journal_dir) 0o755 with
    | none => none
    | some (rc, w1) =>
      if rc = -1 ∧ w1.errno ≠ some Errno.EEXIST then some (-1, w1)
      else
        let labelled : Int × World :=
          if mount_label ≠ [] then sys_setfilecon w1 journal_dir mount_label else (0, w1)
        match labelled with
        | (rc2, w2) =>
          if rc2 < 0 then some (-1, w2)
          else
            match makepath fuel w2 (some cont_journal_dir) 0o755 with
            | none => none
            | some (rc3, w3) =>
              if rc3 = -1 ∧ w3.errno ≠ some Errno.EEXIST then some (-1, w3)
              else
                match bind_mount w3 cont_journal_dir cont_journal_dir false with
                | (rc4, w4) => if rc4 = -1 then some (-1, w4) else some (0, w4)
  else some (0, w)

/-- The cgroup block of `prestart` (lines 433-453). -/
def prestart_cgroup (fuel : Nat) (w : World) (rootfs : CStr) (config_mounts : List CStr) :
    Option (Int × World) :=
  if ¬ contains_mount config_mounts "/sys/fs/cgroup".toList then
    match w.mountinfo with
    | none => some (-1, w)
    | some tb =>
      match mount_cgroup fuel w tb none rootfs with
      | none => none
      | some (rc, w1) => if rc = -1 then some (-1, w1) else some (0, w1)
  else some (0, w)

/-- The machine-id block of `prestart` (lines 455-469). -/
def prestart_machine_id (w : World) (rootfs id : CStr) (config_mounts : List CStr) :
    Int × World :=
  if ¬ contains_mount config_mounts "/etc/machine-id".toList then
    let mid_path := snprintf PATH_MAX (rootfs ++ "/etc/machine-id".toList)
    match sys_creat w mid_path (O_CREAT ||| O_WRONLY) 0o444 with
    | (fd, w1) =>
      if fd < 0 then (-1, w1)
      else
        match sys_write w1 mid_path (id.take 32 ++ ['\n']) with
        | (rc, w2) => if rc < 0 then (-1, w2) else (0, w2)
  else (0, w)

/-- `prestart` (lines 277-472).  `none` means that a call of `makepath` did not
return within `fuel` levels of recursion. -/
def prestart (fuel : Nat) (w : World) (rootfs id : CStr) (pid : Int) (mount_label : CStr)
    (config_mounts : List CStr) : Option (Int × World) :=
  match enter_namespace w pid with
  | (rc0, w0) =>
    if rc0 ≠ 0 then some (-1, w0)
    else
      match prestart_run w0 rootfs mount_label config_mounts with
      | (rc1, w1) =>
        if rc1 ≠ 0 then some (-1, w1)
        else
          match prestart_memory_limit_in_kb w1 pid with
          | none => some (-1, w1)
          | some memory_limit_in_kb =>
            match prestart_tmp w1 rootfs mount_label config_mounts memory_limit_in_kb with
            | (rc2, w2) =>
              if rc2 ≠ 0 then some (-1, w2)
              else
                match prestart_journal fuel w2 rootfs id mount_label config_mounts with
                | none => none
                | some (rc3, w3) =>
                  if rc3 ≠ 0 then some (-1, w3)
                  else
                    match prestart_cgroup fuel w3 rootfs config_mounts with
                    | none => none
                    | some (rc4, w4) =>
                      if rc4 ≠ 0 then some (-1, w4)
                      else some (prestart_machine_id w4 rootfs id config_mounts)

/-- `poststop` (lines 474-494). -/
def poststop (w : World) (rootfs : CStr) (config_mounts : List CStr) : Int × World :=
  if contains_mount config_mounts "/etc/machine-id".toList then (0, w)
  else
    let mid_path := snprintf PATH_MAX (rootfs ++ "/etc/machine-id".toList)
    match sys_unlink w mid_path with
    | (rc, w1) =>
      if rc ≠ 0 ∧ w1.errno ≠ some Errno.ENOENT then (1, w1) else (0, w1)

/-! ## Predicates and sample machines used by the theorems -/

/-- An absolute path with a single leading slash. -/
def abs_path (p : CStr) : Prop := p[0]? = some '/' ∧ p[1]? ≠ some '/'

instance (p : CStr) : Decidable (abs_path p) := by unfold abs_path; infer_instance

/-- The test of line 85: the string is exactly `"/"`. -/
def is_root (d : CStr) : Prop := d.length = 1 ∧ d[0]? = some '/'

instance (d : CStr) : Decidable (is_root d) := by unfold is_root; infer_instance

/-- A `mkdir(p, mode)` that cannot create anything in a state with directories
`dirs`: it is refused, or `p` exists, or the parent of `p` does not. -/
def mkdir_noop (refuse : Call → Option Errno) (dirs : List CStr) (mode : Nat) (p : CStr) :
    Prop :=
  refuse (Call.mkdir p mode) ≠ none ∨ dir_exists dirs p = true ∨
    dir_exists dirs (dirname p) = false

/-- Every `mkdir` that `makepath` issues for `d`, followed for `n` levels, is a
`mkdir_noop`. -/
def stable (refuse : Call → Option Errno) (dirs : List CStr) (mode : Nat) :
    Nat → CStr → Prop
  | 0, _ => True
  | n + 1, d => is_root d ∨ (mkdir_noop refuse dirs mode d ∧ stable refuse dirs mode n (dirname d))

/-- A machine with no directory besides the root, no file, and an oracle that
refuses nothing. -/
def world_empty : World :=
  { dirs := [], files := [], errno := none, trace := [], refuse := fun _ => none,
    mountinfo := none }

/-- The path `poststop` and the machine-id block of `prestart` build in their
buffer `mid_path`. -/
def mid_path (rootfs : CStr) : CStr := snprintf PATH_MAX (rootfs ++ "/etc/machine-id".toList)

/-- The string `s` written `n` times. -/
def repeat_str : Nat → CStr → CStr
  | 0, _ => []
  | n + 1, s => s ++ repeat_str n s

/-- A root file system path of 4091 bytes: sixteen components of 254 bytes
and one of 10 bytes, each made of the letter `r`. -/
def long_rootfs : CStr :=
  repeat_str 16 ('/' :: List.replicate 254 'r') ++ '/' :: List.replicate 10 'r'

/-- The path the `/run` block of `prestart` builds in its buffer `run_dir`. -/
def run_dir (rootfs : CStr) : CStr := snprintf PATH_MAX (rootfs ++ "/run".toList)

/-- The path the `/tmp` block of `prestart` builds in its buffer `tmp_dir`. -/
def tmp_dir (rootfs : CStr) : CStr := snprintf PATH_MAX (rootfs ++ "/tmp".toList)

/-- The five mount points `prestart` looks for among the declared mounts. -/
def all_declared : List CStr :=
  ["/run".toList, "/tmp".toList, "/var/log/journal".toList, "/sys/fs/cgroup".toList,
    "/etc/machine-id".toList]

/-- A machine on which process 42 is in the memory cgroup `/c`, whose limit
file holds `limit`; the directories `/r` and `/r/etc` exist, `extra` are
further files, and the oracle refuses nothing. -/
def world_limit (limit : CStr) (extra : List (CStr × CStr)) : World :=
  { dirs := ["/r".toList, "/r/etc".toList],
    files := [("/proc/42/cgroup".toList, "11:cpu:/c\n4:memory:/c\n".toList),
      ("/sys/fs/cgroup/memory/c/memory.limit_in_bytes".toList, limit)] ++ extra,
    errno := none, trace := [], refuse := fun _ => none, mountinfo := none }

/-- Whether a call is a `mount`. -/
def Call.is_mount : Call → Bool
  | .mount _ _ _ _ _ => true
  | _ => false

/-- The declared mounts that leave only the machine-id block to run. -/
def declared_but_machine_id : List CStr :=
  ["/run".toList, "/tmp".toList, "/var/log/journal".toList, "/sys/fs/cgroup".toList]

/-- The declared mounts that leave only the journal block to run. -/
def declared_but_journal : List CStr :=
  ["/run".toList, "/tmp".toList, "/sys/fs/cgroup".toList, "/etc/machine-id".toList]

/-- The machine `world_limit` with a machine-id file of 33 bytes already in
the root file system of the container, as an image ships it. -/
def world_old_machine_id : World :=
  world_limit "4294967296\n".toList
    [("/r/etc/machine-id".toList, "0123456789abcdef0123456789abcdef\n".toList)]

/-- A record of `/proc/<pid>/cgroup`: hierarchy id, subsystem field and cgroup
path, written `id:subsystems:path` on a line of its own. -/
structure CgroupRecord where
  hid : CStr
  subsys : CStr
  path : CStr

/-- The line of a record, newline included. -/
def CgroupRecord.render (r : CgroupRecord) : CStr :=
  r.hid ++ ':' :: (r.subsys ++ ':' :: (r.path ++ ['\n']))

/-- A record as the kernel writes it: no colon in the id, no slash in the
subsystem field, a path that starts with a slash, and no newline inside. -/
def CgroupRecord.wf (r : CgroupRecord) : Prop :=
  ':' ∉ r.hid ∧ '\n' ∉ r.hid ∧ '\n' ∉ r.subsys ∧ '/' ∉ r.subsys ∧ '\n' ∉ r.path ∧
    r.path.head? = some '/'

/-- A machine whose only file is the cgroup membership file of process 42. -/
def world_cgroup (content : CStr) : World :=
  { dirs := [], files := [("/proc/42/cgroup".toList, content)], errno := none, trace := [],
    refuse := fun _ => none, mountinfo := none }

mutual
/-- The targets of all entries below an entry, at any depth, in the order
`mount_cgroup` visits them. -/
def descendants : MountNode → List CStr
  | .mk _ children => descendants_list children
/-- The targets of the entries of a list and of all entries below them. -/
def descendants_list : List MountNode → List CStr
  | [] => []
  | chld :: rest => chld.target :: (descendants chld ++ descendants_list rest)
end

/-- The destination `mount_cgroup` builds in its buffer `dest` for a target. -/
def cgroup_dest (rootfs target : CStr) : CStr := snprintf PATH_MAX (rootfs ++ target)

/-- The `mount` calls of one successful `bind_mount`: the bind mount, and the
read-only remount when `readonly` is set. -/
def bind_calls (src dest : CStr) (readonly : Bool) : List Call :=
  Call.mount src dest "bind".toList MS_BIND none ::
    (if readonly then
      [Call.mount src dest "bind".toList (MS_REMOUNT ||| MS_BIND ||| MS_RDONLY) (some [])]
    else [])

/-- The mounts the claim on the cgroup mirror describes for a list of
targets: one bind mount for each target that begins with `/sys/fs/cgroup`, on
the destination built from `rootfs` and the target, read-only if and only if the
target is not `/sys/fs/cgroup/systemd`. -/
def cgroup_mounts_spec (rootfs : CStr) (targets : List CStr) : List Call :=
  (targets.filter (fun t => decide (t.take 14 = "/sys/fs/cgroup".toList))).flatMap
    (fun t => bind_calls t (cgroup_dest rootfs t)
      (decide (t ≠ "/sys/fs/cgroup/systemd".toList)))

theorem memrchr_spec (s : CStr) (c : Char) : ∀ n i, memrchr s c n = some i → i < n ∧ s[i]? = some c := by
  intro n
  induction n with
  | zero => intro i h; simp [memrchr] at h
  | succ n ih =>
    intro i h
    simp only [memrchr] at h
    split at h
    · rename_i hc
      cases h
      exact ⟨Nat.lt_succ_self _, hc⟩
    · obtain ⟨h1, h2⟩ := ih i h
      exact ⟨Nat.lt_succ_of_lt h1, h2⟩

theorem memrchr_head (s : CStr) (c : Char) (h0 : s[0]? = some c) :
    ∀ n, 0 < n → ∃ i, memrchr s c n = some i := by
  intro n
  induction n with
  | zero => intro h; omega
  | succ n ih =>
    intro _
    simp only [memrchr]
    split
    · exact ⟨n, rfl⟩
    · rename_i hc
      rcases Nat.eq_zero_or_pos n with hn | hn
      · subst hn; exact absurd h0 hc
      · exact ih hn

theorem skip_slashes_back_le (s : CStr) : ∀ k, skip_slashes_back s k ≤ k := by
  intro k
  induction k with
  | zero => simp [skip_slashes_back]
  | succ k ih =>
    simp only [skip_slashes_back]
    split
    · omega
    · omega

theorem skip_slashes_back_zero (s : CStr) :
    ∀ k, skip_slashes_back s k = 0 → ∀ j, j < k → s[j]? = some '/' := by
  intro k
  induction k with
  | zero => intro _ j hj; omega
  | succ k ih =>
    intro h j hj
    simp only [skip_slashes_back] at h
    split at h
    · rename_i hk
      rcases Nat.lt_succ_iff_lt_or_eq.mp hj with hlt | heq
      · exact ih h j hlt
      · subst heq; exact hk
    · omega

theorem dirname_stage2 (p : CStr) (i : Nat) (hi : i < p.length) (hs : p[i]? = some '/')
    (habs : abs_path p) (hlen : 2 ≤ p.length) :
    ∃ k, 1 ≤ k ∧ k < p.length ∧
      (if skip_slashes_back p i = 0 then (if i = 1 then p.take 2 else p.take 1)
        else p.take (skip_slashes_back p i)) = p.take k := by
  by_cases hz : skip_slashes_back p i = 0
  · have hall := skip_slashes_back_zero p i hz
    have hi0 : i = 0 := by
      by_contra hne
      have h1 : p[1]? = some '/' := by
        rcases Nat.lt_or_ge 1 i with h | h
        · exact hall 1 h
        · have : i = 1 := by omega
          subst this; exact hs
      exact habs.2 h1
    subst hi0
    refine ⟨1, le_refl _, by omega, ?_⟩
    simp [hz]
  · refine ⟨skip_slashes_back p i, by omega, ?_, ?_⟩
    · have := skip_slashes_back_le p i; omega
    · simp [hz]

theorem dirname_abs (p : CStr) (habs : abs_path p) (hlen : 2 ≤ p.length) :
    ∃ k, 1 ≤ k ∧ k < p.length ∧ dirname p = p.take k := by
  obtain ⟨i, hi⟩ := memrchr_head p '/' habs.1 p.length (by omega)
  obtain ⟨hil, his⟩ := memrchr_spec p '/' _ _ hi
  have key : ∃ i2, i2 < p.length ∧ p[i2]? = some '/' ∧
      (match strrchr p '/' with
        | none => none
        | some i =>
          if i ≠ 0 ∧ i + 1 = p.length then
            if skip_slashes_back p i ≠ 0 then memrchr p '/' (skip_slashes_back p i) else some i
          else some i) = some i2 := by
    simp only [strrchr, hi]
    by_cases hc : i ≠ 0 ∧ i + 1 = p.length
    · rw [if_pos hc]
      by_cases hr : skip_slashes_back p i ≠ 0
      · rw [if_pos hr]
        obtain ⟨i', hi'⟩ := memrchr_head p '/' habs.1 (skip_slashes_back p i) (by omega)
        obtain ⟨h1, h2⟩ := memrchr_spec p '/' _ _ hi'
        have := skip_slashes_back_le p i
        exact ⟨i', by omega, h2, hi'⟩
      · rw [if_neg hr]
        exact ⟨i, hil, his, rfl⟩
    · rw [if_neg hc]
      exact ⟨i, hil, his, rfl⟩
  obtain ⟨i2, h1, h2, h3⟩ := key
  obtain ⟨k, hk1, hk2, hk3⟩ := dirname_stage2 p i2 h1 h2 habs hlen
  refine ⟨k, hk1, hk2, ?_⟩
  rw [← hk3]
  simp only [dirname]
  rw [h3]

theorem abs_path_take (p : CStr) (k : Nat) (habs : abs_path p) (hk : 1 ≤ k) :
    abs_path (p.take k) := by
  obtain ⟨h0, h1⟩ := habs
  constructor
  · rw [List.getElem?_take]; simp [h0]; omega
  · rw [List.getElem?_take]
    split
    · exact h1
    · simp

theorem abs_path_dirname (p : CStr) (habs : abs_path p) (hlen : 2 ≤ p.length) :
    abs_path (dirname p) ∧ (dirname p).length < p.length ∧ 1 ≤ (dirname p).length := by
  obtain ⟨k, hk1, hk2, hk3⟩ := dirname_abs p habs hlen
  rw [hk3]
  refine ⟨abs_path_take p k habs hk1, ?_, ?_⟩
  · rw [List.length_take]; omega
  · rw [List.length_take]; omega

theorem abs_path_length_one (p : CStr) (habs : abs_path p) (h : p.length < 2) : p = ['/'] := by
  obtain ⟨h0, _⟩ := habs
  match p, h0, h with
  | [c], h0, _ => simp at h0; simp [h0]
  | [], h0, _ => simp at h0
  | _ :: _ :: _, _, h => simp at h; omega

theorem makepath_root (fuel : Nat) (w : World) (d : CStr) (mode : Nat) (h : is_root d) :
    makepath fuel w (some d) mode = some (0, w) := by
  unfold is_root at h
  cases fuel <;> simp [makepath, h]

theorem makepath_zero (w : World) (d : CStr) (mode : Nat) (h : ¬ is_root d) :
    makepath 0 w (some d) mode = none := by
  unfold is_root at h
  simp [makepath, h]

theorem makepath_succ (f : Nat) (w : World) (d : CStr) (mode : Nat) (h : ¬ is_root d) :
    makepath (f + 1) w (some d) mode =
      match makepath f w (some (dirname d)) mode with
      | none => none
      | some (_, w1) => some (sys_mkdir w1 d mode) := by
  unfold is_root at h
  rw [makepath]
  simp only [h, if_false]

theorem makepath_dot (fuel : Nat) (w : World) (mode : Nat) :
    makepath fuel w (some ['.']) mode = none := by
  induction fuel with
  | zero => exact makepath_zero w _ mode (by decide)
  | succ f ih =>
    rw [makepath_succ f w _ mode (by decide)]
    have : dirname ['.'] = ['.'] := by decide
    rw [this, ih]

theorem makepath_terminates (mode : Nat) :
    ∀ fuel (d : CStr) (w : World), abs_path d → d.length ≤ fuel + 1 →
      ∃ r, makepath fuel w (some d) mode = some r := by
  intro fuel
  induction fuel with
  | zero =>
    intro d w habs hlen
    have := abs_path_length_one d habs (by omega)
    subst this
    exact ⟨_, makepath_root 0 w _ mode (by decide)⟩
  | succ f ih =>
    intro d w habs hlen
    by_cases hr : is_root d
    · exact ⟨_, makepath_root _ w d mode hr⟩
    · have h2 : 2 ≤ d.length := by
        by_contra hlt
        have := abs_path_length_one d habs (by omega)
        subst this
        exact hr (by decide)
      obtain ⟨ha, hl, _⟩ := abs_path_dirname d habs h2
      obtain ⟨r, hr'⟩ := ih (dirname d) w ha (by omega)
      rw [makepath_succ f w d mode hr, hr']
      exact ⟨_, rfl⟩

theorem sys_mkdir_frame (w : World) (p : CStr) (mode : Nat) :
    (sys_mkdir w p mode).2.refuse = w.refuse ∧ (sys_mkdir w p mode).2.files = w.files ∧
    (sys_mkdir w p mode).2.mountinfo = w.mountinfo := by
  unfold sys_mkdir
  cases w.refuse (Call.mkdir p mode) with
  | some e => exact ⟨rfl, rfl, rfl⟩
  | none =>
    dsimp only
    split_ifs <;> exact ⟨rfl, rfl, rfl⟩

theorem makepath_frame (mode : Nat) :
    ∀ fuel (w : World) (d : CStr) r w1, makepath fuel w (some d) mode = some (r, w1) →
      w1.refuse = w.refuse ∧ w1.files = w.files ∧ w1.mountinfo = w.mountinfo := by
  intro fuel
  induction fuel with
  | zero =>
    intro w d r w1 h
    by_cases hr : is_root d
    · rw [makepath_root 0 w d mode hr] at h
      cases h; exact ⟨rfl, rfl, rfl⟩
    · rw [makepath_zero w d mode hr] at h; cases h
  | succ f ih =>
    intro w d r w1 h
    by_cases hr : is_root d
    · rw [makepath_root _ w d mode hr] at h
      cases h; exact ⟨rfl, rfl, rfl⟩
    · rw [makepath_succ f w d mode hr] at h
      cases hm : makepath f w (some (dirname d)) mode with
      | none => rw [hm] at h; cases h
      | some x =>
        obtain ⟨r0, wa⟩ := x
        rw [hm] at h
        simp only [Option.some.injEq] at h
        obtain ⟨h1, h2, h3⟩ := ih w (dirname d) r0 wa hm
        obtain ⟨g1, g2, g3⟩ := sys_mkdir_frame wa d mode
        rw [h] at g1 g2 g3
        simp only at g1 g2 g3
        exact ⟨g1.trans h1, g2.trans h2, g3.trans h3⟩

theorem dir_exists_cons (dirs : List CStr) (d q : CStr) :
    dir_exists (d :: dirs) q = (decide (q = d) || dir_exists dirs q) := by
  unfold dir_exists
  by_cases h1 : q = ['/'] <;> by_cases h2 : q = ['.'] <;> by_cases h3 : q = d <;>
    by_cases h4 : q ∈ dirs <;> simp [h1, h2, h3, h4]

theorem sys_mkdir_noop (w : World) (p : CStr) (mode : Nat)
    (h : mkdir_noop w.refuse w.dirs mode p) : (sys_mkdir w p mode).2.dirs = w.dirs := by
  unfold sys_mkdir
  cases hr : w.refuse (Call.mkdir p mode) with
  | some e => rfl
  | none =>
    dsimp only
    rcases h with h | h | h
    · exact absurd hr h
    · rw [if_pos h]
    · by_cases he : dir_exists w.dirs p = true
      · rw [if_pos he]
      · rw [if_neg he, if_neg (by simp [h])]

/-- What `sys_mkdir` returns, case by case. -/
theorem sys_mkdir_result (w : World) (p : CStr) (mode : Nat) :
    ((sys_mkdir w p mode).1 = -1 ∧ (sys_mkdir w p mode).2.dirs = w.dirs ∧
      mkdir_noop w.refuse w.dirs mode p ∧
      ((sys_mkdir w p mode).2.errno = some Errno.EEXIST →
        w.refuse (Call.mkdir p mode) = some Errno.EEXIST ∨
        (w.refuse (Call.mkdir p mode) = none ∧ dir_exists w.dirs p = true))) ∨
    ((sys_mkdir w p mode).1 = 0 ∧ (sys_mkdir w p mode).2.dirs = p :: w.dirs ∧
      w.refuse (Call.mkdir p mode) = none) := by
  unfold sys_mkdir
  cases hr : w.refuse (Call.mkdir p mode) with
  | some e =>
    left
    refine ⟨rfl, rfl, Or.inl (by simp [hr]), ?_⟩
    intro h
    simp only [Option.some.injEq] at h
    left; rw [h]
  | none =>
    dsimp only
    by_cases he : dir_exists w.dirs p = true
    · rw [if_pos he]
      left
      exact ⟨rfl, rfl, Or.inr (Or.inl he), fun _ => Or.inr ⟨rfl, he⟩⟩
    · rw [if_neg he]
      by_cases hp : dir_exists w.dirs (dirname p) = true
      · rw [if_pos hp]
        right
        exact ⟨rfl, rfl, rfl⟩
      · rw [if_neg hp]
        left
        refine ⟨rfl, rfl, Or.inr (Or.inr (by simpa using hp)), ?_⟩
        intro h
        simp at h

theorem sys_mkdir_exists (w : World) (p : CStr) (mode : Nat)
    (hr : w.refuse (Call.mkdir p mode) = none ∨ w.refuse (Call.mkdir p mode) = some Errno.EEXIST)
    (he : w.refuse (Call.mkdir p mode) = none → dir_exists w.dirs p = true) :
    (sys_mkdir w p mode).1 = -1 ∧ (sys_mkdir w p mode).2.errno = some Errno.EEXIST := by
  unfold sys_mkdir
  rcases hr with hr | hr
  · rw [hr]; dsimp only; rw [if_pos (he hr)]; exact ⟨rfl, rfl⟩
  · rw [hr]; exact ⟨rfl, rfl⟩

theorem makepath_stable (mode : Nat) :
    ∀ f (w : World) (d : CStr) r w1, stable w.refuse w.dirs mode f d →
      makepath f w (some d) mode = some (r, w1) → w1.dirs = w.dirs := by
  intro f
  induction f with
  | zero =>
    intro w d r w1 _ h
    by_cases hr : is_root d
    · rw [makepath_root 0 w d mode hr] at h; cases h; rfl
    · rw [makepath_zero w d mode hr] at h; cases h
  | succ f ih =>
    intro w d r w1 hs h
    by_cases hr : is_root d
    · rw [makepath_root _ w d mode hr] at h; cases h; rfl
    · rw [makepath_succ f w d mode hr] at h
      rcases hs with hs | ⟨hn, hs⟩
      · exact absurd hs hr
      · cases hm : makepath f w (some (dirname d)) mode with
        | none => rw [hm] at h; cases h
        | some x =>
          obtain ⟨r0, wa⟩ := x
          rw [hm] at h
          simp only [Option.some.injEq] at h
          have hd := ih w (dirname d) r0 wa hs hm
          obtain ⟨hf, _, _⟩ := makepath_frame mode f w (dirname d) r0 wa hm
          have := sys_mkdir_noop wa d mode (by rw [hf, hd]; exact hn)
          rw [h] at this
          exact this.trans hd

theorem stable_cons (refuse : Call → Option Errno) (dirs : List CStr) (mode : Nat) (d : CStr) :
    ∀ n (q : CStr), abs_path q → q.length < d.length → stable refuse dirs mode n q →
      stable refuse (d :: dirs) mode n q := by
  intro n
  induction n with
  | zero => intro q _ _ _; trivial
  | succ n ih =>
    intro q habs hlen hs
    rcases hs with hs | ⟨hn, hs⟩
    · exact Or.inl hs
    · by_cases hr : is_root q
      · exact Or.inl hr
      · have h2 : 2 ≤ q.length := by
          by_contra hlt
          have := abs_path_length_one q habs (by omega)
          subst this
          exact hr (by decide)
        obtain ⟨ha, hl, _⟩ := abs_path_dirname q habs h2
        refine Or.inr ⟨?_, ih (dirname q) ha (by omega) hs⟩
        rcases hn with hn | hn | hn
        · exact Or.inl hn
        · exact Or.inr (Or.inl (by rw [dir_exists_cons, hn]; simp))
        · refine Or.inr (Or.inr ?_)
          rw [dir_exists_cons, hn]
          have : dirname q ≠ d := by
            intro he; rw [he] at hl; omega
          simp [this]

theorem makepath_makes_stable (mode : Nat) :
    ∀ f (w : World) (d : CStr) r w1, abs_path d →
      makepath f w (some d) mode = some (r, w1) → ∀ n, stable w1.refuse w1.dirs mode n d := by
  intro f
  induction f with
  | zero =>
    intro w d r w1 _ h n
    by_cases hr : is_root d
    · cases n with
      | zero => trivial
      | succ n => exact Or.inl hr
    · rw [makepath_zero w d mode hr] at h; cases h
  | succ f ih =>
    intro w d r w1 habs h n
    by_cases hr : is_root d
    · cases n with
      | zero => trivial
      | succ n => exact Or.inl hr
    · cases n with
      | zero => trivial
      | succ n =>
        have h2 : 2 ≤ d.length := by
          by_contra hlt
          have := abs_path_length_one d habs (by omega)
          subst this
          exact hr (by decide)
        obtain ⟨ha, hl, _⟩ := abs_path_dirname d habs h2
        rw [makepath_succ f w d mode hr] at h
        cases hm : makepath f w (some (dirname d)) mode with
        | none => rw [hm] at h; cases h
        | some x =>
          obtain ⟨r0, wa⟩ := x
          rw [hm] at h
          simp only [Option.some.injEq] at h
          have hst := ih w (dirname d) r0 wa ha hm n
          obtain ⟨g1, _, _⟩ := sys_mkdir_frame wa d mode
          rw [h] at g1
          simp only at g1
          refine Or.inr ?_
          rcases sys_mkdir_result wa d mode with ⟨_, hd, hn, _⟩ | ⟨_, hd, _⟩
          · rw [h] at hd
            simp only at hd
            rw [g1, hd]
            exact ⟨hn, hst⟩
          · rw [h] at hd
            simp only at hd
            rw [g1, hd]
            refine ⟨Or.inr (Or.inl ?_), stable_cons wa.refuse wa.dirs mode d n (dirname d) ha hl hst⟩
            rw [dir_exists_cons]; simp

theorem is_root_iff (d : CStr) : is_root d ↔ d = ['/'] := by
  unfold is_root
  constructor
  · rintro ⟨h1, h2⟩
    match d, h1, h2 with
    | [c], _, h2 => simp at h2; simp [h2]
  · rintro rfl; decide

/-- C7 (amended): two calls of `makepath` in a row on an absolute path both
return, the second one changes neither the directories nor the files, and
whenever the first one ended the way every call site accepts (it returned 0,
or -1 with `errno = EEXIST`) the second one returns -1 with `errno = EEXIST`,
which the call sites accept as well; on `"/"` both return 0. -/
theorem makepath_twice (w : World) (d : CStr) (mode fuel : Nat) (habs : abs_path d)
    (hfuel : d.length ≤ fuel + 1) :
    ∃ r1 w1 r2 w2, makepath fuel w (some d) mode = some (r1, w1) ∧
      makepath fuel w1 (some d) mode = some (r2, w2) ∧
      w2.dirs = w1.dirs ∧ w2.files = w1.files ∧
      (d = ['/'] → r1 = 0 ∧ r2 = 0) ∧
      (d ≠ ['/'] → ¬ (r1 = -1 ∧ w1.errno ≠ some Errno.EEXIST) →
        r2 = -1 ∧ w2.errno = some Errno.EEXIST) := by
  obtain ⟨⟨r1, w1⟩, h1⟩ := makepath_terminates mode fuel d w habs hfuel
  obtain ⟨⟨r2, w2⟩, h2⟩ := makepath_terminates mode fuel d w1 habs hfuel
  have hst := makepath_makes_stable mode fuel w d r1 w1 habs h1
  refine ⟨r1, w1, r2, w2, h1, h2, makepath_stable mode fuel w1 d r2 w2 (hst fuel) h2,
    (makepath_frame mode fuel w1 d r2 w2 h2).2.1, ?_, ?_⟩
  · intro hd
    have hr := (is_root_iff d).mpr hd
    rw [makepath_root fuel w d mode hr] at h1
    rw [makepath_root fuel w1 d mode hr] at h2
    cases h1; cases h2
    exact ⟨rfl, rfl⟩
  · intro hd htol
    have hr : ¬ is_root d := fun h => hd ((is_root_iff d).mp h)
    cases fuel with
    | zero => rw [makepath_zero w d mode hr] at h1; cases h1
    | succ f =>
      rw [makepath_succ f w d mode hr] at h1
      rw [makepath_succ f w1 d mode hr] at h2
      cases hm1 : makepath f w (some (dirname d)) mode with
      | none => rw [hm1] at h1; cases h1
      | some x =>
        obtain ⟨r0, wa⟩ := x
        rw [hm1] at h1
        simp only [Option.some.injEq] at h1
        cases hm2 : makepath f w1 (some (dirname d)) mode with
        | none => rw [hm2] at h2; cases h2
        | some y =>
          obtain ⟨r0b, wb⟩ := y
          rw [hm2] at h2
          simp only [Option.some.injEq] at h2
          have hsd : stable w1.refuse w1.dirs mode f (dirname d) := by
            rcases hst (f + 1) with h | h
            · exact absurd h hr
            · exact h.2
          have hbd : wb.dirs = w1.dirs := makepath_stable mode f w1 (dirname d) r0b wb hsd hm2
          have hbr : wb.refuse = w1.refuse := (makepath_frame mode f w1 (dirname d) r0b wb hm2).1
          have har : w1.refuse = wa.refuse := by
            have := (sys_mkdir_frame wa d mode).1
            rw [h1] at this; exact this
          have hres := sys_mkdir_exists wb d mode
          rw [h2] at hres
          simp only at hres
          rcases sys_mkdir_result wa d mode with ⟨hr1, hd1, _, he1⟩ | ⟨_, hd1, hn1⟩
          · rw [h1] at hr1 hd1 he1
            simp only at hr1 hd1 he1
            have herr : w1.errno = some Errno.EEXIST := by
              by_contra hne
              exact htol ⟨hr1, hne⟩
            rcases he1 herr with h | ⟨h, hex⟩
            · apply hres
              · right; rw [hbr, har]; exact h
              · intro hnone; rw [hbr, har, h] at hnone; cases hnone
            · apply hres
              · left; rw [hbr, har]; exact h
              · intro _; rw [hbd, hd1]; exact hex
          · rw [h1] at hd1
            simp only at hd1
            apply hres
            · left; rw [hbr, har]; exact hn1
            · intro _; rw [hbd, hd1, dir_exists_cons]; simp

/-- Witness of C7: `/a/b` on the empty machine. -/
theorem makepath_twice_witness :
    ∃ r1 w1 r2 w2, makepath 5 world_empty (some "/a/b".toList) 0o755 = some (r1, w1) ∧
      makepath 5 w1 (some "/a/b".toList) 0o755 = some (r2, w2) ∧
      w2.dirs = w1.dirs ∧ w2.files = w1.files ∧
      ("/a/b".toList = ['/'] → r1 = 0 ∧ r2 = 0) ∧
      ("/a/b".toList ≠ ['/'] → ¬ (r1 = -1 ∧ w1.errno ≠ some Errno.EEXIST) →
        r2 = -1 ∧ w2.errno = some Errno.EEXIST) :=
  makepath_twice world_empty "/a/b".toList 0o755 5 (by decide) (by decide)

/-- C7 as stated fails: on the empty machine the first `makepath("/a", 0755)`
returns 0 and the second one, issued right after it, returns -1 with
`errno = EEXIST`. -/
theorem makepath_second_call_returns_error :
    (makepath 2 world_empty (some "/a".toList) 0o755).map (fun r => r.1) = some 0 ∧
    ((makepath 2 world_empty (some "/a".toList) 0o755).bind
      (fun r => makepath 2 r.2 (some "/a".toList) 0o755)).map (fun r => (r.1, r.2.errno))
      = some (-1, some Errno.EEXIST) := by
  decide

/-- C9 at the failing input: `makepath("a", mode)` does not return, whatever
the depth of recursion allowed, and neither does `makepath("a/b", mode)`:
`dirname` maps `"a"` to `"."` and `"."` to itself, and line 85 stops only at
`"/"`. -/
theorem makepath_relative_never_returns (fuel : Nat) (w : World) (mode : Nat) :
    makepath fuel w (some "a".toList) mode = none ∧
    makepath fuel w (some "a/b".toList) mode = none := by
  have ha : ∀ f w, makepath f w (some "a".toList) mode = none := by
    intro f w
    cases f with
    | zero => exact makepath_zero w _ mode (by decide)
    | succ f =>
      rw [makepath_succ f w _ mode (by decide)]
      have : dirname "a".toList = ['.'] := by decide
      rw [this, makepath_dot]
  refine ⟨ha fuel w, ?_⟩
  cases fuel with
  | zero => exact makepath_zero w _ mode (by decide)
  | succ f =>
    rw [makepath_succ f w _ mode (by decide)]
    have : dirname "a/b".toList = "a".toList := by decide
    rw [this, ha]

/-! ## `poststop` -/

theorem snprintf_fits (n : Nat) (s : CStr) (h : s.length + 1 ≤ n) : snprintf n s = s := by
  unfold snprintf
  exact List.take_of_length_le (by omega)

theorem snprintf_length (n : Nat) (s : CStr) : (snprintf n s).length ≤ n - 1 := by
  unfold snprintf
  rw [List.length_take]
  exact Nat.min_le_left _ _

theorem lookup_remove_file (files : List (CStr × CStr)) (path : CStr) :
    lookup_file (remove_file files path) path = none := by
  induction files with
  | nil => rfl
  | cons x rest ih =>
    obtain ⟨p, c⟩ := x
    by_cases h : p = path
    · simp [remove_file, h, ih]
    · simp [remove_file, lookup_file, h, ih]

theorem sys_unlink_absent (w : World) (path : CStr) (hr : w.refuse (Call.unlink path) = none)
    (hf : lookup_file w.files path = none) :
    (sys_unlink w path).1 = -1 ∧ (sys_unlink w path).2.errno = some Errno.ENOENT := by
  unfold sys_unlink
  rw [hr]; dsimp only; rw [hf]
  exact ⟨rfl, rfl⟩

theorem sys_unlink_trace (w : World) (path : CStr) :
    (sys_unlink w path).2.trace = w.trace ++ [Call.unlink path] := by
  unfold sys_unlink
  cases w.refuse (Call.unlink path) with
  | some e => rfl
  | none =>
    dsimp only
    cases lookup_file w.files path <;> rfl

theorem poststop_undeclared (w : World) (rootfs : CStr) (config_mounts : List CStr)
    (h : contains_mount config_mounts "/etc/machine-id".toList = false) :
    poststop w rootfs config_mounts =
      (if (sys_unlink w (mid_path rootfs)).1 ≠ 0 ∧
          (sys_unlink w (mid_path rootfs)).2.errno ≠ some Errno.ENOENT
        then (1, (sys_unlink w (mid_path rootfs)).2)
        else (0, (sys_unlink w (mid_path rootfs)).2)) := by
  simp only [poststop, h, mid_path]
  rfl

theorem poststop_trace (w : World) (rootfs : CStr) (config_mounts : List CStr)
    (h : contains_mount config_mounts "/etc/machine-id".toList = false) :
    (poststop w rootfs config_mounts).2.trace = w.trace ++ [Call.unlink (mid_path rootfs)] := by
  rw [poststop_undeclared w rootfs config_mounts h]
  split_ifs <;> exact sys_unlink_trace w _

theorem repeat_str_length (s : CStr) : ∀ n, (repeat_str n s).length = n * s.length := by
  intro n
  induction n with
  | zero => simp [repeat_str]
  | succ n ih => rw [repeat_str, List.length_append, ih, Nat.succ_mul, Nat.add_comm]

theorem long_rootfs_length : long_rootfs.length = 4091 := by
  unfold long_rootfs
  rw [List.length_append, repeat_str_length, List.length_cons, List.length_replicate,
    List.length_cons, List.length_replicate]

theorem mid_path_long_rootfs : mid_path long_rootfs = long_rootfs ++ "/etc".toList := by
  have e : "/etc/machine-id".toList = "/etc".toList ++ "/machine-id".toList := by decide
  unfold mid_path snprintf
  rw [e, ← List.append_assoc]
  have hl : (long_rootfs ++ "/etc".toList).length = PATH_MAX - 1 := by
    have h1 : long_rootfs.length = 4091 := long_rootfs_length
    have h2 : "/etc".toList.length = 4 := by decide
    rw [List.length_append, h1, h2]
    rfl
  rw [← hl, List.take_left]

/-- C6 (amended): with `/etc/machine-id` declared `poststop` returns 0 and
leaves the machine untouched; otherwise it issues exactly one deletion, of
the path in its buffer, which is `<rootfs>/etc/machine-id` whenever that
fits the `PATH_MAX` bytes of the buffer; it returns non-zero exactly when
the deletion is refused with an error other than `ENOENT`; and where the
deletion is permitted, `poststop` run twice in a row returns 0 both times. -/
theorem poststop_spec (w : World) (rootfs : CStr) (config_mounts : List CStr) :
    (contains_mount config_mounts "/etc/machine-id".toList = true →
      poststop w rootfs config_mounts = (0, w)) ∧
    (contains_mount config_mounts "/etc/machine-id".toList = false →
      (poststop w rootfs config_mounts).2.trace = w.trace ++ [Call.unlink (mid_path rootfs)] ∧
      (rootfs.length + 16 ≤ PATH_MAX →
        mid_path rootfs = rootfs ++ "/etc/machine-id".toList) ∧
      ((poststop w rootfs config_mounts).1 ≠ 0 ↔
        ∃ e, w.refuse (Call.unlink (mid_path rootfs)) = some e ∧ e ≠ Errno.ENOENT) ∧
      (w.refuse (Call.unlink (mid_path rootfs)) = none →
        (poststop w rootfs config_mounts).1 = 0 ∧
        (poststop (poststop w rootfs config_mounts).2 rootfs config_mounts).1 = 0)) := by
  constructor
  · intro h
    unfold poststop
    rw [if_pos h]
  · intro h
    have hp : ∀ w : World, poststop w rootfs config_mounts = _ :=
      fun w => poststop_undeclared w rootfs config_mounts h
    refine ⟨?_, ?_, ?_, ?_⟩
    · exact poststop_trace w rootfs config_mounts h
    · intro hl
      unfold mid_path
      apply snprintf_fits
      simp only [List.length_append, PATH_MAX] at *
      have : "/etc/machine-id".toList.length = 15 := by decide
      omega
    · rw [hp]
      unfold sys_unlink
      cases hr : w.refuse (Call.unlink (mid_path rootfs)) with
      | some e =>
        dsimp only
        by_cases he : e = Errno.ENOENT
        · simp [he]
        · simp [he]
      | none =>
        dsimp only
        cases lookup_file w.files (mid_path rootfs) <;> simp
    · intro hr
      have h1 : (poststop w rootfs config_mounts).1 = 0 ∧
          (poststop w rootfs config_mounts).2.refuse = w.refuse ∧
          lookup_file (poststop w rootfs config_mounts).2.files (mid_path rootfs) = none := by
        rw [hp]
        unfold sys_unlink
        rw [hr]
        dsimp only
        cases hf : lookup_file w.files (mid_path rootfs) with
        | some c => simp [lookup_remove_file]
        | none => simp [hf]
      refine ⟨h1.1, ?_⟩
      rw [hp]
      obtain ⟨_, h2, h3⟩ := h1
      have := sys_unlink_absent (poststop w rootfs config_mounts).2 (mid_path rootfs)
        (by rw [h2]; exact hr) h3
      simp [this.2]

/-- C6 as stated fails for a root path that does not fit the buffer: with
the 4091-byte `long_rootfs` the one deletion `poststop` issues is of the first
4095 bytes of `<rootfs>/etc/machine-id`, not of that path. -/
theorem poststop_deletes_truncated_path :
    (poststop world_empty long_rootfs []).2.trace
      = [Call.unlink (long_rootfs ++ "/etc".toList)] ∧
    (poststop world_empty long_rootfs []).2.trace
      ≠ [Call.unlink (long_rootfs ++ "/etc/machine-id".toList)] := by
  have ht := poststop_trace world_empty long_rootfs [] rfl
  rw [mid_path_long_rootfs] at ht
  refine ⟨ht, ?_⟩
  rw [ht]
  intro h
  injection h with h1 _
  injection h1 with h2
  have h3 := List.append_cancel_left h2
  revert h3
  decide

/-! ## `prestart`: skipped blocks and the memory limit -/

theorem enter_namespace_ok (w : World) (pid : Int) (h : (enter_namespace w pid).1 = 0) :
    enter_namespace w pid = (0, w) := by
  unfold enter_namespace at h ⊢
  dsimp only at h ⊢
  cases h1 : w.refuse (Call.open_rdonly (snprintf PATH_MAX
      ("/proc/".toList ++ fmt_d pid ++ "/ns/mnt".toList))) with
  | some e => rw [h1] at h; simp at h
  | none =>
    rw [h1] at h
    dsimp only at h ⊢
    cases h2 : w.refuse (Call.setns (snprintf PATH_MAX
        ("/proc/".toList ++ fmt_d pid ++ "/ns/mnt".toList))) with
    | some e => rw [h2] at h; simp at h
    | none =>
      rw [h2] at h
      dsimp only at h ⊢
      cases h3 : w.refuse (Call.chdir ['/']) with
      | some e => rw [h3] at h; simp at h
      | none => rfl

theorem sys_mount_frame (w : World) (s t f : CStr) (flags : Nat) (data : Option CStr) :
    (sys_mount w s t f flags data).2.files = w.files ∧
    (sys_mount w s t f flags data).2.refuse = w.refuse ∧
    (sys_mount w s t f flags data).2.dirs = w.dirs ∧
    (sys_mount w s t f flags data).2.mountinfo = w.mountinfo ∧
    (sys_mount w s t f flags data).2.trace = w.trace ++ [Call.mount s t f flags data] := by
  unfold sys_mount
  dsimp only
  cases w.refuse (Call.mount s t f flags data) <;> exact ⟨rfl, rfl, rfl, rfl, rfl⟩

theorem sys_mkdir_trace (w : World) (p : CStr) (mode : Nat) :
    (sys_mkdir w p mode).2.trace = w.trace ++ [Call.mkdir p mode] := by
  unfold sys_mkdir
  cases w.refuse (Call.mkdir p mode) with
  | some e => rfl
  | none =>
    dsimp only
    split_ifs <;> rfl

theorem prestart_run_declared (w : World) (rootfs mount_label : CStr)
    (config_mounts : List CStr) (h : contains_mount config_mounts "/run".toList = true) :
    prestart_run w rootfs mount_label config_mounts = (0, w) := by
  unfold prestart_run
  dsimp only
  rw [if_neg (fun hn => hn h)]

theorem prestart_tmp_declared (w : World) (rootfs mount_label : CStr)
    (config_mounts : List CStr) (kb : Nat)
    (h : contains_mount config_mounts "/tmp".toList = true) :
    prestart_tmp w rootfs mount_label config_mounts kb = (0, w) := by
  unfold prestart_tmp
  dsimp only
  rw [if_neg (fun hn => hn h)]

theorem prestart_journal_declared (fuel : Nat) (w : World) (rootfs id mount_label : CStr)
    (config_mounts : List CStr)
    (h : contains_mount config_mounts "/var/log/journal".toList = true) :
    prestart_journal fuel w rootfs id mount_label config_mounts = some (0, w) := by
  unfold prestart_journal
  rw [if_neg (fun hn => hn h)]

theorem prestart_cgroup_declared (fuel : Nat) (w : World) (rootfs : CStr)
    (config_mounts : List CStr)
    (h : contains_mount config_mounts "/sys/fs/cgroup".toList = true) :
    prestart_cgroup fuel w rootfs config_mounts = some (0, w) := by
  unfold prestart_cgroup
  rw [if_neg (fun hn => hn h)]

theorem prestart_machine_id_declared (w : World) (rootfs id : CStr)
    (config_mounts : List CStr)
    (h : contains_mount config_mounts "/etc/machine-id".toList = true) :
    prestart_machine_id w rootfs id config_mounts = (0, w) := by
  unfold prestart_machine_id
  rw [if_neg (fun hn => hn h)]

/-- With all five mount points declared and the namespace entered,
`prestart` is the derivation of the memory limit and nothing else. -/
theorem prestart_declared_eq (fuel : Nat) (w : World) (rootfs id : CStr) (pid : Int)
    (mount_label : CStr) (config_mounts : List CStr)
    (hns : (enter_namespace w pid).1 = 0)
    (h1 : contains_mount config_mounts "/run".toList = true)
    (h2 : contains_mount config_mounts "/tmp".toList = true)
    (h3 : contains_mount config_mounts "/var/log/journal".toList = true)
    (h4 : contains_mount config_mounts "/sys/fs/cgroup".toList = true)
    (h5 : contains_mount config_mounts "/etc/machine-id".toList = true) :
    prestart fuel w rootfs id pid mount_label config_mounts
      = some (if prestart_memory_limit_in_kb w pid = none then -1 else 0, w) := by
  unfold prestart
  rw [enter_namespace_ok w pid hns]
  dsimp only
  rw [if_neg (by simp), prestart_run_declared w rootfs mount_label config_mounts h1]
  dsimp only
  rw [if_neg (by simp)]
  cases hm : prestart_memory_limit_in_kb w pid with
  | none => simp
  | some kb =>
    dsimp only
    rw [prestart_tmp_declared w rootfs mount_label config_mounts kb h2]
    dsimp only
    rw [if_neg (by simp), prestart_journal_declared fuel w rootfs id mount_label config_mounts h3]
    dsimp only
    rw [if_neg (by simp), prestart_cgroup_declared fuel w rootfs config_mounts h4]
    dsimp only
    rw [if_neg (by simp), prestart_machine_id_declared w rootfs id config_mounts h5]
    simp

/-- C1 (amended): with the namespace entered and all five mount points
declared, `prestart` returns for every recursion bound, issues no directory
creation, mount, relabel, file creation, write or deletion, and leaves
directories and files as they were; it returns 0 exactly when the memory
limit can be derived, and -1 otherwise. -/
theorem prestart_all_declared (fuel : Nat) (w : World) (rootfs id : CStr) (pid : Int)
    (mount_label : CStr) (config_mounts : List CStr)
    (hns : (enter_namespace w pid).1 = 0)
    (h1 : contains_mount config_mounts "/run".toList = true)
    (h2 : contains_mount config_mounts "/tmp".toList = true)
    (h3 : contains_mount config_mounts "/var/log/journal".toList = true)
    (h4 : contains_mount config_mounts "/sys/fs/cgroup".toList = true)
    (h5 : contains_mount config_mounts "/etc/machine-id".toList = true) :
    ∃ rc w1, prestart fuel w rootfs id pid mount_label config_mounts = some (rc, w1) ∧
      w1.trace = w.trace ∧ w1.dirs = w.dirs ∧ w1.files = w.files ∧
      (rc = 0 ↔ prestart_memory_limit_in_kb w pid ≠ none) ∧
      (rc = -1 ↔ prestart_memory_limit_in_kb w pid = none) := by
  refine ⟨_, w, prestart_declared_eq fuel w rootfs id pid mount_label config_mounts hns
    h1 h2 h3 h4 h5, rfl, rfl, rfl, ?_, ?_⟩
  · by_cases hm : prestart_memory_limit_in_kb w pid = none <;> simp [hm]
  · by_cases hm : prestart_memory_limit_in_kb w pid = none <;> simp [hm]

/-- Witness of C1: the machine `world_limit` with every mount point declared. -/
theorem prestart_all_declared_witness :
    ∃ rc w1, prestart 0 (world_limit "4294967296\n".toList []) "/r".toList "myctr".toList 42 []
        all_declared = some (rc, w1) ∧
      w1.trace = (world_limit "4294967296\n".toList []).trace ∧
      w1.dirs = (world_limit "4294967296\n".toList []).dirs ∧
      w1.files = (world_limit "4294967296\n".toList []).files ∧
      (rc = 0 ↔ prestart_memory_limit_in_kb (world_limit "4294967296\n".toList []) 42 ≠ none) ∧
      (rc = -1 ↔ prestart_memory_limit_in_kb (world_limit "4294967296\n".toList []) 42 = none) :=
  prestart_all_declared 0 (world_limit "4294967296\n".toList []) "/r".toList "myctr".toList 42 []
    all_declared (by decide) (by decide) (by decide) (by decide) (by decide) (by decide)

/-- C1 as stated fails: with the namespace entered and all five mount points
declared, `prestart` returns -1, not 0, on a machine where the membership
file of process 42 holds the single record `0::/user.slice` (a unified
hierarchy, no record for `memory`), and also where that file does not exist. -/
theorem prestart_all_declared_returns_error :
    (enter_namespace (world_cgroup "0::/user.slice\n".toList) 42).1 = 0 ∧
    (prestart 0 (world_cgroup "0::/user.slice\n".toList) "/r".toList "myctr".toList 42 []
        all_declared).map (fun r => r.1) = some (-1) ∧
    (enter_namespace world_empty 42).1 = 0 ∧
    (prestart 0 world_empty "/r".toList "myctr".toList 42 [] all_declared).map (fun r => r.1)
      = some (-1) := by
  decide

theorem lookup_store_file (files : List (CStr × CStr)) (path c : CStr) :
    lookup_file (store_file files path c) path = some c := by
  induction files with
  | nil => simp [store_file, lookup_file]
  | cons x rest ih =>
    obtain ⟨p, old⟩ := x
    by_cases h : p = path
    · simp [store_file, lookup_file, h]
    · simp [store_file, lookup_file, h, ih]

/-- The machine-id block on a root file system without a machine-id file:
when it returns 0 the file holds the first 32 bytes of the id and a newline,
and nothing else. -/
theorem prestart_machine_id_fresh (w : World) (rootfs id : CStr) (config_mounts : List CStr)
    (hdecl : contains_mount config_mounts "/etc/machine-id".toList = false)
    (habsent : lookup_file w.files (mid_path rootfs) = none)
    (hok : (prestart_machine_id w rootfs id config_mounts).1 = 0) :
    lookup_file (prestart_machine_id w rootfs id config_mounts).2.files (mid_path rootfs)
      = some (id.take 32 ++ ['\n']) := by
  unfold prestart_machine_id at hok ⊢
  rw [if_pos (by rw [hdecl]; exact Bool.false_ne_true)] at hok ⊢
  change (if (sys_creat w (mid_path rootfs) (O_CREAT ||| O_WRONLY) 0o444).1 < 0
    then ((-1 : Int), (sys_creat w (mid_path rootfs) (O_CREAT ||| O_WRONLY) 0o444).2)
    else if (sys_write (sys_creat w (mid_path rootfs) (O_CREAT ||| O_WRONLY) 0o444).2
        (mid_path rootfs) (id.take 32 ++ ['\n'])).1 < 0
      then (-1, (sys_write (sys_creat w (mid_path rootfs) (O_CREAT ||| O_WRONLY) 0o444).2
        (mid_path rootfs) (id.take 32 ++ ['\n'])).2)
      else (0, (sys_write (sys_creat w (mid_path rootfs) (O_CREAT ||| O_WRONLY) 0o444).2
        (mid_path rootfs) (id.take 32 ++ ['\n'])).2)).1 = 0 at hok
  change lookup_file (if (sys_creat w (mid_path rootfs) (O_CREAT ||| O_WRONLY) 0o444).1 < 0
    then ((-1 : Int), (sys_creat w (mid_path rootfs) (O_CREAT ||| O_WRONLY) 0o444).2)
    else if (sys_write (sys_creat w (mid_path rootfs) (O_CREAT ||| O_WRONLY) 0o444).2
        (mid_path rootfs) (id.take 32 ++ ['\n'])).1 < 0
      then (-1, (sys_write (sys_creat w (mid_path rootfs) (O_CREAT ||| O_WRONLY) 0o444).2
        (mid_path rootfs) (id.take 32 ++ ['\n'])).2)
      else (0, (sys_write (sys_creat w (mid_path rootfs) (O_CREAT ||| O_WRONLY) 0o444).2
        (mid_path rootfs) (id.take 32 ++ ['\n'])).2)).2.files (mid_path rootfs) = _
  have hc : (sys_creat w (mid_path rootfs) (O_CREAT ||| O_WRONLY) 0o444).1 < 0 ∨
      ((sys_creat w (mid_path rootfs) (O_CREAT ||| O_WRONLY) 0o444).2.files
          = store_file w.files (mid_path rootfs) [] ∧
        (sys_creat w (mid_path rootfs) (O_CREAT ||| O_WRONLY) 0o444).2.refuse = w.refuse) := by
    unfold sys_creat
    cases w.refuse (Call.creat (mid_path rootfs) (O_CREAT ||| O_WRONLY) 0o444) with
    | some e => left; dsimp only; omega
    | none =>
      dsimp only
      rw [habsent]
      dsimp only
      split_ifs
      · right; exact ⟨rfl, rfl⟩
      · left; dsimp only; omega
  rcases hc with hc | ⟨hc1, hc2⟩
  · rw [if_pos hc] at hok; cases hok
  · by_cases hneg : (sys_creat w (mid_path rootfs) (O_CREAT ||| O_WRONLY) 0o444).1 < 0
    · rw [if_pos hneg] at hok; cases hok
    · rw [if_neg hneg] at hok ⊢
      by_cases hw : (sys_write (sys_creat w (mid_path rootfs) (O_CREAT ||| O_WRONLY) 0o444).2
          (mid_path rootfs) (id.take 32 ++ ['\n'])).1 < 0
      · rw [if_pos hw] at hok; cases hok
      · rw [if_neg hw]
        dsimp only
        revert hw
        unfold sys_write
        cases (sys_creat w (mid_path rootfs) (O_CREAT ||| O_WRONLY) 0o444).2.refuse
            (Call.write (mid_path rootfs) (id.take 32 ++ ['\n'])) with
        | some e => intro hw; exact absurd (by dsimp only; omega) hw
        | none =>
          intro _
          dsimp only
          rw [lookup_store_file, hc1, lookup_store_file]
          simp

/-- C5 at the failing input: the root file system already holds a machine-id
file of 33 bytes, the container id is `myctr`, `/etc/machine-id` is not
declared.  `prestart` returns 0 and the file then holds `myctr`, a newline,
and the last 27 bytes of the old content: the file is opened without
`O_TRUNC`.  On the same machine without the old file the content is exactly
the id and a newline, and the id of the claim gives its first 32 bytes and a
newline. -/
theorem prestart_machine_id_keeps_old_tail :
    (prestart 0 world_old_machine_id "/r".toList "myctr".toList 42 []
        declared_but_machine_id).map
      (fun r => (r.1, lookup_file r.2.files "/r/etc/machine-id".toList))
      = some (0, some "myctr\n6789abcdef0123456789abcdef\n".toList) ∧
    (prestart 0 (world_limit "4294967296\n".toList []) "/r".toList "myctr".toList 42 []
        declared_but_machine_id).map
      (fun r => (r.1, lookup_file r.2.files "/r/etc/machine-id".toList))
      = some (0, some "myctr\n".toList) ∧
    (prestart 0 (world_limit "4294967296\n".toList []) "/r".toList
        "abcdef0123456789abcdef0123456789extra".toList 42 []
        declared_but_machine_id).map
      (fun r => (r.1, lookup_file r.2.files "/r/etc/machine-id".toList))
      = some (0, some "abcdef0123456789abcdef0123456789\n".toList) := by
  decide

/-- The journal block, when it runs to its end, finishes with a bind mount
whose source and target are both the directory inside the container. -/
theorem prestart_journal_last_call (fuel : Nat) (w w1 : World) (rootfs id mount_label : CStr)
    (config_mounts : List CStr)
    (hdecl : contains_mount config_mounts "/var/log/journal".toList = false)
    (hok : prestart_journal fuel w rootfs id mount_label config_mounts = some (0, w1)) :
    w1.trace.getLast? = some (Call.mount
      (snprintf PATH_MAX (rootfs ++ snprintf PATH_MAX ("/var/log/journal/".toList ++ id.take 32)))
      (snprintf PATH_MAX (rootfs ++ snprintf PATH_MAX ("/var/log/journal/".toList ++ id.take 32)))
      "bind".toList MS_BIND none) := by
  unfold prestart_journal at hok
  rw [if_pos (by rw [hdecl]; exact Bool.false_ne_true)] at hok
  dsimp only at hok
  cases h1 : makepath fuel w
      (some (snprintf PATH_MAX ("/var/log/journal/".toList ++ id.take 32))) 0o755 with
  | none => rw [h1] at hok; cases hok
  | some x =>
    obtain ⟨rc, wa⟩ := x
    rw [h1] at hok
    dsimp only at hok
    by_cases c1 : rc = -1 ∧ wa.errno ≠ some Errno.EEXIST
    · rw [if_pos c1] at hok; simp at hok
    · rw [if_neg c1] at hok
      generalize (if mount_label ≠ [] then
        sys_setfilecon wa (snprintf PATH_MAX ("/var/log/journal/".toList ++ id.take 32))
          mount_label else ((0 : Int), wa)) = lab at hok
      obtain ⟨rc2, wb⟩ := lab
      dsimp only at hok
      by_cases c2 : rc2 < 0
      · rw [if_pos c2] at hok; simp at hok
      · rw [if_neg c2] at hok
        cases h3 : makepath fuel wb (some (snprintf PATH_MAX
            (rootfs ++ snprintf PATH_MAX ("/var/log/journal/".toList ++ id.take 32)))) 0o755 with
        | none => rw [h3] at hok; cases hok
        | some y =>
          obtain ⟨rc3, wc⟩ := y
          rw [h3] at hok
          dsimp only at hok
          by_cases c3 : rc3 = -1 ∧ wc.errno ≠ some Errno.EEXIST
          · rw [if_pos c3] at hok; simp at hok
          · rw [if_neg c3] at hok
            unfold bind_mount at hok
            have ht := (sys_mount_frame wc
              (snprintf PATH_MAX
                (rootfs ++ snprintf PATH_MAX ("/var/log/journal/".toList ++ id.take 32)))
              (snprintf PATH_MAX
                (rootfs ++ snprintf PATH_MAX ("/var/log/journal/".toList ++ id.take 32)))
              "bind".toList MS_BIND none).2.2.2.2
            generalize sys_mount wc _ _ _ MS_BIND none = r at hok ht
            obtain ⟨r1, wm⟩ := r
            dsimp only at hok ht
            by_cases c4 : r1 = -1
            · rw [if_pos c4] at hok; simp at hok
            · rw [if_neg c4] at hok
              have : wm = w1 := by simpa using hok
              rw [← this, ht]
              simp

/-- C2 at the failing input: root file system `/r`, id `myctr`, no label,
`/var/log/journal` not declared.  The one mount of the journal block has the
directory inside the container, `/r/var/log/journal/myctr`, as its source and
as its target; the host directory `/var/log/journal/myctr` is created but is
not the source of any mount. -/
theorem prestart_journal_mounts_container_dir :
    (prestart 8 (world_limit "4294967296\n".toList []) "/r".toList "myctr".toList 42 []
        declared_but_journal).map
      (fun r => (r.1, r.2.trace.filter Call.is_mount, r.2.dirs))
      = some (0, [Call.mount "/r/var/log/journal/myctr".toList
            "/r/var/log/journal/myctr".toList "bind".toList MS_BIND none],
          ["/r/var/log/journal/myctr".toList, "/r/var/log/journal".toList,
            "/r/var/log".toList, "/r/var".toList, "/var/log/journal/myctr".toList,
            "/var/log/journal".toList, "/var/log".toList, "/var".toList,
            "/r".toList, "/r/etc".toList]) := by
  decide!

/-! ## `get_process_cgroup_subsystem_path` -/

theorem getlines_line (s rest : CStr) (hs : '\n' ∉ s) :
    ∀ cur, getlines (s ++ '\n' :: rest) cur = (cur ++ s ++ ['\n']) :: getlines rest [] := by
  induction s with
  | nil => intro cur; simp [getlines]
  | cons c cs ih =>
    intro cur
    have hc : c ≠ '\n' := fun h => hs (by simp [h])
    have hcs : '\n' ∉ cs := fun h => hs (by simp [h])
    rw [List.cons_append, getlines, if_neg hc, ih hcs]
    simp

theorem strchr_skip (a b : CStr) (c : Char) (h : c ∉ a) : strchr (a ++ b) c = strchr b c := by
  induction a with
  | nil => rfl
  | cons x xs ih =>
    have hx : x ≠ c := fun e => h (by simp [e])
    have hxs : c ∉ xs := fun e => h (by simp [e])
    rw [List.cons_append, strchr, if_neg hx, ih hxs]

theorem strchr_head (b : CStr) (c : Char) : strchr (c :: b) c = some (c :: b) := by
  rw [strchr, if_pos rfl]

theorem take_append_sep (m s rest : CStr) (c : Char) (hc : c ∉ m) :
    (s ++ c :: rest).take m.length = m ↔ s.take m.length = m := by
  rcases Nat.lt_or_ge s.length m.length with hlt | hge
  · constructor
    · intro h
      exfalso
      rw [List.take_append_eq_append_take] at h
      have h1 : s.take m.length = s := List.take_of_length_le (le_of_lt hlt)
      obtain ⟨k, hk⟩ : ∃ k, m.length - s.length = k + 1 := ⟨m.length - s.length - 1, by omega⟩
      rw [h1, hk, List.take_succ_cons] at h
      apply hc
      rw [← h]
      simp
    · intro h
      exfalso
      have h1 : s.take m.length = s := List.take_of_length_le (le_of_lt hlt)
      rw [h1] at h
      rw [h] at hlt
      omega
  · rw [List.take_append_of_le_length hge]

/-- One round of the loop on the line of a well-formed record. -/
theorem cgroup_scan_record (r : CgroupRecord) (hwf : r.wf) (rest : List CStr) :
    cgroup_scan "memory".toList (r.render :: rest) =
      if r.subsys.take 6 = "memory".toList then
        some ("/sys/fs/cgroup/memory".toList ++ r.path)
      else cgroup_scan "memory".toList rest := by
  obtain ⟨h1, _, _, h4, _, h6⟩ := hwf
  have hcolon : strchr r.render ':' = some (':' :: (r.subsys ++ ':' :: (r.path ++ ['\n']))) := by
    unfold CgroupRecord.render
    rw [strchr_skip _ _ _ h1, strchr_head]
  have hmatch : strncmp_eq (r.subsys ++ ':' :: (r.path ++ ['\n'])) "memory".toList
      "memory".toList.length = decide (r.subsys.take 6 = "memory".toList) := by
    unfold strncmp_eq
    have e : "memory".toList.take "memory".toList.length = "memory".toList := by decide
    rw [e]
    have := take_append_sep "memory".toList r.subsys (r.path ++ ['\n']) ':' (by decide)
    have l6 : "memory".toList.length = 6 := by decide
    rw [l6] at this ⊢
    exact decide_eq_decide.mpr this
  obtain ⟨p, hp⟩ : ∃ p, r.path = '/' :: p := by
    cases hpath : r.path with
    | nil => rw [hpath] at h6; simp at h6
    | cons c p => rw [hpath] at h6; simp at h6; exact ⟨p, by rw [h6]⟩
  have hslash : strchr (r.subsys ++ ':' :: (r.path ++ ['\n'])) '/' = some (r.path ++ ['\n']) := by
    rw [strchr_skip _ _ _ h4, strchr, if_neg (by decide), hp, List.cons_append, strchr_head]
  rw [cgroup_scan, hcolon]
  dsimp only [List.tail_cons]
  rw [hmatch]
  by_cases hm : r.subsys.take 6 = "memory".toList
  · rw [if_pos hm, if_pos (by simpa using hm), hslash]
    dsimp only
    congr 1
    have : CGROUP_ROOT ++ ['/'] ++ "memory".toList ++ (r.path ++ ['\n'])
        = ("/sys/fs/cgroup/memory".toList ++ r.path) ++ ['\n'] := by
      have e : CGROUP_ROOT ++ ['/'] ++ "memory".toList = "/sys/fs/cgroup/memory".toList := by
        decide
      rw [e, List.append_assoc]
    rw [this, List.dropLast_concat]
  · rw [if_neg hm, if_neg (by simpa using hm)]

theorem getlines_records (rs : List CgroupRecord) (hwf : ∀ r ∈ rs, r.wf) :
    getlines (rs.flatMap CgroupRecord.render) [] = rs.map CgroupRecord.render := by
  induction rs with
  | nil => rfl
  | cons r rest ih =>
    obtain ⟨_, h2, h3, _, h5, _⟩ := hwf r (by simp)
    have hn : '\n' ∉ r.hid ++ ':' :: (r.subsys ++ ':' :: r.path) := by
      simp only [List.mem_append, List.mem_cons, not_or]
      exact ⟨h2, by decide, h3, by decide, h5⟩
    have e : (r :: rest).flatMap CgroupRecord.render
        = (r.hid ++ ':' :: (r.subsys ++ ':' :: r.path)) ++ '\n' :: rest.flatMap CgroupRecord.render := by
      simp [List.flatMap_cons, CgroupRecord.render]
    rw [e, getlines_line _ _ hn, ih (fun r hr => hwf r (by simp [hr]))]
    simp [CgroupRecord.render]

theorem cgroup_scan_records (rs : List CgroupRecord) (hwf : ∀ r ∈ rs, r.wf) :
    cgroup_scan "memory".toList (rs.map CgroupRecord.render) =
      (rs.find? (fun r => decide (r.subsys.take 6 = "memory".toList))).map
        (fun r => "/sys/fs/cgroup/memory".toList ++ r.path) := by
  induction rs with
  | nil => rfl
  | cons r rest ih =>
    rw [List.map_cons, cgroup_scan_record r (hwf r (by simp)), List.find?_cons]
    by_cases hm : r.subsys.take 6 = "memory".toList
    · rw [if_pos hm, decide_eq_true hm]
      rfl
    · rw [if_neg hm, ih (fun r hr => hwf r (by simp [hr])), decide_eq_false hm]

/-- C10 (amended): on a membership file made of well-formed records, each on a
line that ends with a newline, `get_process_cgroup_subsystem_path(pid,
"memory")` takes the first record whose subsystem field begins with `memory`
and returns `/sys/fs/cgroup/memory` followed by the path field of that record;
it returns NULL when no record has such a field. -/
theorem cgroup_memory_path (w : World) (pid : Int) (rs : List CgroupRecord)
    (hwf : ∀ r ∈ rs, r.wf)
    (hopen : w.refuse (Call.open_rdonly ("/proc/".toList ++ fmt_d pid ++ "/cgroup".toList)) = none)
    (hread : w.refuse (Call.read ("/proc/".toList ++ fmt_d pid ++ "/cgroup".toList)) = none)
    (hfile : lookup_file w.files ("/proc/".toList ++ fmt_d pid ++ "/cgroup".toList)
      = some (rs.flatMap CgroupRecord.render)) :
    get_process_cgroup_subsystem_path w pid "memory".toList =
      (rs.find? (fun r => decide (r.subsys.take 6 = "memory".toList))).map
        (fun r => "/sys/fs/cgroup/memory".toList ++ r.path) := by
  unfold get_process_cgroup_subsystem_path
  dsimp only
  rw [hopen]
  dsimp only
  rw [hfile]
  dsimp only
  rw [hread]
  dsimp only
  rw [getlines_records rs hwf, cgroup_scan_records rs hwf]

/-- Witness of C10: the records `11:cpu:/c` and `4:memory:/docker/abc`. -/
theorem cgroup_memory_path_witness :
    get_process_cgroup_subsystem_path
        (world_cgroup "11:cpu:/c\n4:memory:/docker/abc\n".toList) 42 "memory".toList =
      ([⟨"11".toList, "cpu".toList, "/c".toList⟩,
          ⟨"4".toList, "memory".toList, "/docker/abc".toList⟩].find?
        (fun r : CgroupRecord => decide (r.subsys.take 6 = "memory".toList))).map
        (fun r => "/sys/fs/cgroup/memory".toList ++ r.path) :=
  cgroup_memory_path (world_cgroup "11:cpu:/c\n4:memory:/docker/abc\n".toList) 42
    [⟨"11".toList, "cpu".toList, "/c".toList⟩,
      ⟨"4".toList, "memory".toList, "/docker/abc".toList⟩]
    (by
      intro r hr
      simp only [List.mem_cons, List.mem_singleton, List.not_mem_nil, or_false] at hr
      rcases hr with rfl | rfl <;> (unfold CgroupRecord.wf; decide))
    (by decide) (by decide) (by decide)

/-- C10 as stated fails twice.  A record whose subsystem field merely starts
with `memory` is selected: with `3:memoryfoo:/a` before `4:memory:/b` the
result is `/sys/fs/cgroup/memory/a`.  And the last byte is cut off whether
or not it is a newline: the single line `4:memory:/docker/abc` without a
newline gives `/sys/fs/cgroup/memory/docker/ab`. -/
theorem cgroup_memory_path_not_exact :
    get_process_cgroup_subsystem_path
        (world_cgroup "3:memoryfoo:/a\n4:memory:/b\n".toList) 42 "memory".toList
      = some "/sys/fs/cgroup/memory/a".toList ∧
    get_process_cgroup_subsystem_path
        (world_cgroup "4:memory:/docker/abc".toList) 42 "memory".toList
      = some "/sys/fs/cgroup/memory/docker/ab".toList := by
  decide

theorem cgroup_scan_no_colon (subsystem line : CStr) (rest : List CStr)
    (h : strchr line ':' = none) : cgroup_scan subsystem (line :: rest) = none := by
  rw [cgroup_scan, h]

theorem cgroup_scan_no_path (subsystem line p : CStr) (rest : List CStr)
    (h : strchr line ':' = some p)
    (hm : strncmp_eq p.tail subsystem subsystem.length = true)
    (hp : strchr p.tail '/' = none) : cgroup_scan subsystem (line :: rest) = none := by
  rw [cgroup_scan, h]
  dsimp only
  rw [if_pos hm, hp]

theorem cgroup_scan_no_record (subsystem : CStr) (lines : List CStr)
    (h : ∀ line ∈ lines, ∀ p, strchr line ':' = some p →
      strncmp_eq p.tail subsystem subsystem.length = false) :
    cgroup_scan subsystem lines = none := by
  induction lines with
  | nil => rfl
  | cons line rest ih =>
    rw [cgroup_scan]
    cases hc : strchr line ':' with
    | none => rfl
    | some p =>
      dsimp only
      rw [if_neg (by rw [h line (by simp) p hc]; exact Bool.false_ne_true)]
      exact ih (fun l hl => h l (by simp [hl]))

/-! ## `mount_cgroup` -/

theorem makepath_trace (mode : Nat) :
    ∀ fuel (w : World) (d : CStr) r w1, makepath fuel w (some d) mode = some (r, w1) →
      ∃ l, w1.trace = w.trace ++ l ∧ l.filter Call.is_mount = [] := by
  intro fuel
  induction fuel with
  | zero =>
    intro w d r w1 h
    by_cases hr : is_root d
    · rw [makepath_root 0 w d mode hr] at h
      cases h; exact ⟨[], by simp, rfl⟩
    · rw [makepath_zero w d mode hr] at h; cases h
  | succ f ih =>
    intro w d r w1 h
    by_cases hr : is_root d
    · rw [makepath_root _ w d mode hr] at h
      cases h; exact ⟨[], by simp, rfl⟩
    · rw [makepath_succ f w d mode hr] at h
      cases hm : makepath f w (some (dirname d)) mode with
      | none => rw [hm] at h; cases h
      | some x =>
        obtain ⟨r0, wa⟩ := x
        rw [hm] at h
        simp only [Option.some.injEq] at h
        obtain ⟨l, hl, hf⟩ := ih w (dirname d) r0 wa hm
        have ht := sys_mkdir_trace wa d mode
        rw [h] at ht
        simp only at ht
        refine ⟨l ++ [Call.mkdir d mode], by rw [ht, hl, List.append_assoc], ?_⟩
        rw [List.filter_append, hf]
        rfl

theorem bind_mount_ok (w : World) (src dest : CStr) (readonly : Bool)
    (h : ¬ (bind_mount w src dest readonly).1 < 0) :
    (bind_mount w src dest readonly).2.trace = w.trace ++ bind_calls src dest readonly ∧
    (bind_mount w src dest readonly).2.refuse = w.refuse := by
  unfold bind_mount at h ⊢
  obtain ⟨_, m2, _, _, m5⟩ := sys_mount_frame w src dest "bind".toList MS_BIND none
  generalize sys_mount w src dest "bind".toList MS_BIND none = r1 at h m2 m5 ⊢
  obtain ⟨rc, w1⟩ := r1
  dsimp only at h m2 m5 ⊢
  by_cases c1 : rc = -1
  · rw [if_pos c1] at h; exact absurd (by dsimp only; omega) h
  · rw [if_neg c1] at h ⊢
    cases readonly with
    | false =>
      simp only [Bool.false_eq_true, if_false]
      exact ⟨by rw [m5]; rfl, m2⟩
    | true =>
      simp only [if_true] at h ⊢
      obtain ⟨_, n2, _, _, n5⟩ := sys_mount_frame w1 src dest "bind".toList
        (MS_REMOUNT ||| MS_BIND ||| MS_RDONLY) (some [])
      generalize sys_mount w1 src dest "bind".toList
        (MS_REMOUNT ||| MS_BIND ||| MS_RDONLY) (some []) = r2 at h n2 n5 ⊢
      obtain ⟨rc2, w2⟩ := r2
      dsimp only at h n2 n5 ⊢
      by_cases c2 : rc2 = -1
      · rw [if_pos c2] at h; exact absurd (by dsimp only; omega) h
      · rw [if_neg c2]
        exact ⟨by rw [n5, m5, List.append_assoc]; rfl, n2.trans m2⟩

theorem bind_calls_all_mounts (src dest : CStr) (readonly : Bool) :
    (bind_calls src dest readonly).filter Call.is_mount = bind_calls src dest readonly := by
  cases readonly <;> rfl

theorem cgroup_mounts_spec_cons (rootfs t : CStr) (ts : List CStr) :
    cgroup_mounts_spec rootfs (t :: ts) =
      (if t.take 14 = "/sys/fs/cgroup".toList then
        bind_calls t (cgroup_dest rootfs t) (decide (t ≠ "/sys/fs/cgroup/systemd".toList))
      else []) ++ cgroup_mounts_spec rootfs ts := by
  unfold cgroup_mounts_spec
  by_cases h : t.take 14 = "/sys/fs/cgroup".toList
  · rw [List.filter_cons_of_pos (by exact decide_eq_true h), List.flatMap_cons, if_pos h]
  · rw [List.filter_cons_of_neg (by simpa using h), if_neg h]
    rfl

theorem cgroup_mounts_spec_append (rootfs : CStr) (a b : List CStr) :
    cgroup_mounts_spec rootfs (a ++ b) =
      cgroup_mounts_spec rootfs a ++ cgroup_mounts_spec rootfs b := by
  unfold cgroup_mounts_spec
  rw [List.filter_append, List.flatMap_append]

/-- One child of the loop: when the step returns 0 it has issued the mounts
the claim describes for the child, and `mkdir` calls besides. -/
theorem mount_cgroup_child_trace (fuel : Nat) (rootfs src : CStr) (w w1 : World)
    (h : mount_cgroup_child fuel rootfs src w = some (0, w1)) :
    ∃ l, w1.trace = w.trace ++ l ∧ l.filter Call.is_mount = cgroup_mounts_spec rootfs [src] := by
  unfold mount_cgroup_child at h
  rw [cgroup_mounts_spec_cons]
  have e14 : CGROUP_ROOT.length = 14 := by decide
  have hpre : strncmp_eq src CGROUP_ROOT CGROUP_ROOT.length
      = decide (src.take 14 = "/sys/fs/cgroup".toList) := by
    unfold strncmp_eq
    rw [e14]
    rfl
  rw [hpre] at h
  by_cases hm : src.take 14 = "/sys/fs/cgroup".toList
  · rw [if_pos (decide_eq_true hm)] at h
    rw [if_pos hm]
    dsimp only at h
    cases hmk : makepath fuel w (some (snprintf PATH_MAX (rootfs ++ src))) 0o755 with
    | none => rw [hmk] at h; cases h
    | some x =>
      obtain ⟨rc, wa⟩ := x
      rw [hmk] at h
      dsimp only at h
      obtain ⟨l, hl, hf⟩ := makepath_trace 0o755 fuel w _ rc wa hmk
      by_cases c1 : rc = -1 ∧ wa.errno ≠ some Errno.EEXIST
      · rw [if_pos c1] at h; simp at h
      · rw [if_neg c1] at h
        by_cases c2 : (bind_mount wa src (snprintf PATH_MAX (rootfs ++ src))
            (decide (src ≠ "/sys/fs/cgroup/systemd".toList))).1 < 0
        · rw [if_pos c2] at h; simp at h
        · rw [if_neg c2] at h
          have hw : (bind_mount wa src (snprintf PATH_MAX (rootfs ++ src))
              (decide (src ≠ "/sys/fs/cgroup/systemd".toList))).2 = w1 := by
            simpa using h
          obtain ⟨hb, _⟩ := bind_mount_ok wa src _ _ c2
          rw [hw] at hb
          refine ⟨l ++ bind_calls src (cgroup_dest rootfs src)
            (decide (src ≠ "/sys/fs/cgroup/systemd".toList)), ?_, ?_⟩
          · rw [hb, hl, List.append_assoc]; rfl
          · rw [List.filter_append, hf, bind_calls_all_mounts]
            unfold cgroup_mounts_spec
            simp
  · rw [if_neg (by simpa using hm)] at h
    rw [if_neg hm]
    have : w = w1 := by simpa using h
    exact ⟨[], by rw [this]; simp, by unfold cgroup_mounts_spec; rfl⟩

mutual
/-- Whenever `mount_cgroup` on an entry returns 0, the mounts it has issued are
those the claim describes for the entries below it. -/
theorem mount_cgroup_fs_trace (fuel : Nat) (rootfs : CStr) :
    ∀ (fs : MountNode) (w w1 : World), mount_cgroup_fs fuel rootfs fs w = some (0, w1) →
      ∃ l, w1.trace = w.trace ++ l ∧
        l.filter Call.is_mount = cgroup_mounts_spec rootfs (descendants fs)
  | .mk _ children, w, w1, h => by
    rw [mount_cgroup_fs] at h
    rw [descendants]
    exact mount_cgroup_loop_trace fuel rootfs children w w1 h
/-- The same for the loop over a list of children. -/
theorem mount_cgroup_loop_trace (fuel : Nat) (rootfs : CStr) :
    ∀ (cs : List MountNode) (w w1 : World), mount_cgroup_loop fuel rootfs cs w = some (0, w1) →
      ∃ l, w1.trace = w.trace ++ l ∧
        l.filter Call.is_mount = cgroup_mounts_spec rootfs (descendants_list cs)
  | [], w, w1, h => by
    rw [mount_cgroup_loop] at h
    have : w = w1 := by simpa using h
    exact ⟨[], by rw [this]; simp, rfl⟩
  | chld :: rest, w, w1, h => by
    rw [mount_cgroup_loop] at h
    rw [descendants_list]
    cases h1 : mount_cgroup_child fuel rootfs chld.target w with
    | none => rw [h1] at h; cases h
    | some x =>
      obtain ⟨rc, wa⟩ := x
      rw [h1] at h
      dsimp only at h
      by_cases c1 : rc ≠ 0
      · rw [if_pos c1] at h; simp at h
      · rw [if_neg c1] at h
        have hrc : rc = 0 := by simpa using c1
        subst hrc
        cases h2 : mount_cgroup_fs fuel rootfs chld wa with
        | none => rw [h2] at h; cases h
        | some y =>
          obtain ⟨rc2, wb⟩ := y
          rw [h2] at h
          dsimp only at h
          by_cases c2 : rc2 ≠ 0
          · rw [if_pos c2] at h; simp at h
          · rw [if_neg c2] at h
            have hrc2 : rc2 = 0 := by simpa using c2
            subst hrc2
            obtain ⟨l1, t1, f1⟩ := mount_cgroup_child_trace fuel rootfs chld.target w wa h1
            obtain ⟨l2, t2, f2⟩ := mount_cgroup_fs_trace fuel rootfs chld wa wb h2
            obtain ⟨l3, t3, f3⟩ := mount_cgroup_loop_trace fuel rootfs rest wb w1 h
            refine ⟨l1 ++ (l2 ++ l3), ?_, ?_⟩
            · rw [t3, t2, t1]; simp
            · rw [List.filter_append, List.filter_append, f1, f2, f3,
                ← cgroup_mounts_spec_append, ← cgroup_mounts_spec_append]
              rfl
end

theorem dir_exists_root (dirs : List CStr) : dir_exists dirs ['/'] = true := by
  unfold dir_exists
  simp

/-- Where no call is refused, `makepath` on an absolute path returns in a way
its callers accept, and the directory exists afterwards. -/
theorem makepath_unrefused (mode : Nat) :
    ∀ fuel (d : CStr) (w : World), (∀ c, w.refuse c = none) → abs_path d →
      d.length ≤ fuel + 1 →
      ∃ r w1, makepath fuel w (some d) mode = some (r, w1) ∧
        ¬ (r = -1 ∧ w1.errno ≠ some Errno.EEXIST) ∧ dir_exists w1.dirs d = true ∧
        w1.refuse = w.refuse := by
  intro fuel
  induction fuel with
  | zero =>
    intro d w _ habs hlen
    have := abs_path_length_one d habs (by omega)
    subst this
    exact ⟨0, w, makepath_root 0 w _ mode (by decide), by simp, dir_exists_root _, rfl⟩
  | succ f ih =>
    intro d w href habs hlen
    by_cases hr : is_root d
    · have := (is_root_iff d).mp hr
      subst this
      exact ⟨0, w, makepath_root _ w _ mode hr, by simp, dir_exists_root _, rfl⟩
    · have h2 : 2 ≤ d.length := by
        by_contra hlt
        have := abs_path_length_one d habs (by omega)
        subst this
        exact hr (by decide)
      obtain ⟨ha, hl, _⟩ := abs_path_dirname d habs h2
      obtain ⟨r0, wa, hm, _, hex, hrf⟩ := ih (dirname d) w href ha (by omega)
      rw [makepath_succ f w d mode hr, hm]
      dsimp only
      have hra : wa.refuse (Call.mkdir d mode) = none := by rw [hrf]; exact href _
      refine ⟨(sys_mkdir wa d mode).1, (sys_mkdir wa d mode).2, rfl, ?_, ?_,
        ((sys_mkdir_frame wa d mode).1).trans hrf⟩
      · unfold sys_mkdir
        rw [hra]
        dsimp only
        by_cases he : dir_exists wa.dirs d = true
        · rw [if_pos he]; simp
        · rw [if_neg he, if_pos hex]; simp
      · unfold sys_mkdir
        rw [hra]
        dsimp only
        by_cases he : dir_exists wa.dirs d = true
        · rw [if_pos he]; exact he
        · rw [if_neg he, if_pos hex]
          dsimp only
          rw [dir_exists_cons]; simp

theorem bind_mount_unrefused (w : World) (src dest : CStr) (readonly : Bool)
    (href : ∀ c, w.refuse c = none) :
    (bind_mount w src dest readonly).1 = 0 ∧
    (bind_mount w src dest readonly).2.refuse = w.refuse := by
  unfold bind_mount sys_mount
  dsimp only
  rw [href]
  dsimp only
  cases readonly with
  | false => simp
  | true =>
    simp only [if_true]
    rw [href]
    simp

theorem abs_path_append (a b : CStr) (habs : abs_path a) (hlen : 2 ≤ a.length) :
    abs_path (a ++ b) := by
  obtain ⟨h0, h1⟩ := habs
  constructor
  · rw [List.getElem?_append_left (by omega)]; exact h0
  · rw [List.getElem?_append_left (by omega)]; exact h1

theorem abs_path_cgroup_dest (rootfs src : CStr) (habs : abs_path (rootfs ++ CGROUP_ROOT))
    (hm : src.take 14 = "/sys/fs/cgroup".toList) :
    abs_path (cgroup_dest rootfs src) ∧ (cgroup_dest rootfs src).length ≤ PATH_MAX - 1 := by
  have e : rootfs ++ src = (rootfs ++ CGROUP_ROOT) ++ src.drop 14 := by
    have : CGROUP_ROOT = "/sys/fs/cgroup".toList := rfl
    rw [List.append_assoc, this, ← hm, List.take_append_drop]
  have hl : 2 ≤ (rootfs ++ CGROUP_ROOT).length := by
    rw [List.length_append]
    have : CGROUP_ROOT.length = 14 := by decide
    omega
  unfold cgroup_dest
  refine ⟨?_, snprintf_length _ _⟩
  unfold snprintf
  rw [e]
  exact abs_path_take _ _ (abs_path_append _ _ habs hl) (by decide)

theorem mount_cgroup_child_unrefused (fuel : Nat) (rootfs src : CStr) (w : World)
    (href : ∀ c, w.refuse c = none) (habs : abs_path (rootfs ++ CGROUP_ROOT))
    (hfuel : PATH_MAX ≤ fuel + 2) :
    ∃ w1, mount_cgroup_child fuel rootfs src w = some (0, w1) ∧ w1.refuse = w.refuse := by
  unfold mount_cgroup_child
  have e14 : CGROUP_ROOT.length = 14 := by decide
  have hpre : strncmp_eq src CGROUP_ROOT CGROUP_ROOT.length
      = decide (src.take 14 = "/sys/fs/cgroup".toList) := by
    unfold strncmp_eq
    rw [e14]
    rfl
  rw [hpre]
  by_cases hm : src.take 14 = "/sys/fs/cgroup".toList
  · rw [if_pos (decide_eq_true hm)]
    dsimp only
    obtain ⟨ha, hl⟩ := abs_path_cgroup_dest rootfs src habs hm
    obtain ⟨r, wa, hmk, htol, _, hrf⟩ := makepath_unrefused 0o755 fuel (cgroup_dest rootfs src) w
      href ha (by unfold PATH_MAX at hfuel hl; omega)
    unfold cgroup_dest at hmk
    rw [hmk]
    dsimp only
    rw [if_neg htol]
    obtain ⟨b1, b2⟩ := bind_mount_unrefused wa src (snprintf PATH_MAX (rootfs ++ src))
      (decide (src ≠ "/sys/fs/cgroup/systemd".toList)) (by rw [hrf]; exact href)
    refine ⟨(bind_mount wa src (snprintf PATH_MAX (rootfs ++ src))
      (decide (src ≠ "/sys/fs/cgroup/systemd".toList))).2, ?_, b2.trans hrf⟩
    rw [if_neg (by rw [b1]; decide)]
  · rw [if_neg (by simpa using hm)]
    exact ⟨w, rfl, rfl⟩

mutual
/-- Where no call is refused and the destinations are absolute paths,
`mount_cgroup` on an entry returns 0. -/
theorem mount_cgroup_fs_unrefused (fuel : Nat) (rootfs : CStr)
    (habs : abs_path (rootfs ++ CGROUP_ROOT)) (hfuel : PATH_MAX ≤ fuel + 2) :
    ∀ (fs : MountNode) (w : World), (∀ c, w.refuse c = none) →
      ∃ w1, mount_cgroup_fs fuel rootfs fs w = some (0, w1) ∧ w1.refuse = w.refuse
  | .mk _ children, w, href => by
    rw [mount_cgroup_fs]
    exact mount_cgroup_loop_unrefused fuel rootfs habs hfuel children w href
/-- The same for the loop over a list of children. -/
theorem mount_cgroup_loop_unrefused (fuel : Nat) (rootfs : CStr)
    (habs : abs_path (rootfs ++ CGROUP_ROOT)) (hfuel : PATH_MAX ≤ fuel + 2) :
    ∀ (cs : List MountNode) (w : World), (∀ c, w.refuse c = none) →
      ∃ w1, mount_cgroup_loop fuel rootfs cs w = some (0, w1) ∧ w1.refuse = w.refuse
  | [], w, _ => by
    rw [mount_cgroup_loop]
    exact ⟨w, rfl, rfl⟩
  | chld :: rest, w, href => by
    rw [mount_cgroup_loop]
    obtain ⟨wa, h1, r1⟩ := mount_cgroup_child_unrefused fuel rootfs chld.target w href habs hfuel
    rw [h1]
    dsimp only
    rw [if_neg (by simp)]
    obtain ⟨wb, h2, r2⟩ := mount_cgroup_fs_unrefused fuel rootfs habs hfuel chld wa
      (by rw [r1]; exact href)
    rw [h2]
    dsimp only
    rw [if_neg (by simp)]
    obtain ⟨wc, h3, r3⟩ := mount_cgroup_loop_unrefused fuel rootfs habs hfuel rest wb
      (by rw [r2, r1]; exact href)
    exact ⟨wc, h3, r3.trans (r2.trans r1)⟩
end

end SystemdHook
